import Mathlib

/-!
Shallow embedding of the clinic backend core: the daily appointment-token
allocator with conflict detection (src/routes/appointments.js,
src/models/Appointment.js) and the dispensary payment/stock lifecycle
(src/routes/dispensary.js, src/models/Dispense.js, src/models/Medicine.js).

Modelling conventions:
* JS numeric values (amounts, quantities, stock, tokens) are modelled as Int.
  The verified code paths use only addition, subtraction, multiplication,
  max-with-zero and order comparisons, which IEEE doubles realize exactly on
  the integer ranges involved.
* Mongo documents become Lean structures; a collection is a List.
* Optional / possibly-undefined JS fields become Option; the JS idiom
  "x || ''" becomes Option.getD with default "" (note some "" and none both
  collapse to "", exactly as falsy strings do in JS).
* Date instants are Int millisecond timestamps; new Date(d).setHours(0,0,0,0)
  becomes truncation to the enclosing day boundary (timezone offset elided:
  the verified claims rely only on truncation being a deterministic function
  of the instant).
* Fallible route handlers become Except; the store is threaded explicitly.
  A handler that returns an HTTP error before any save leaves the store
  untouched, which the embedding renders by returning only the error.
-/

namespace Clinic

/-- Payment status enum shared by Appointment and Dispense
    (pending / partial / paid / cancelled in the source; the
    constructor for partial is named part because Lean reserves the word). -/
inductive PayStatus
  | pending
  | part
  | paid
  | cancelled
  deriving DecidableEq, Repr

/-- Appointment status enum from src/models/Appointment.js. -/
inductive ApptStatus
  | scheduled
  | confirmed
  | inProgress
  | completed
  | cancelled
  | noShow
  | prescriptionDispensed
  deriving DecidableEq, Repr

/-! ## Dispensary data model -/

/-- A dispense line item (dispenseItemSchema in src/models/Dispense.js).
    strength and form are optional in the schema. -/
structure DispenseItem where
  name : String
  quantity : Int
  unitPrice : Int
  strength : Option String := none
  form : Option String := none
  deriving DecidableEq, Repr

/-- A medicine document (src/models/Medicine.js); only the fields the
    dispensary stock ledger reads. -/
structure Medicine where
  name : String
  strength : String
  form : String
  stock : Int
  deriving DecidableEq, Repr

/-- A dispense document (src/models/Dispense.js); only the fields the
    dispensary routes read or write. billNumber none models an undefined
    field. -/
structure Dispense where
  items : List DispenseItem
  subtotal : Int
  tax : Int
  discount : Int
  total : Int
  paymentStatus : PayStatus
  paidAmount : Int
  billNumber : Option String
  deriving DecidableEq, Repr

/-- JS "x || ''" on an optional string. -/
def orEmpty (o : Option String) : String := o.getD ""

/-- JS truthiness of an optional string: undefined and '' are falsy. -/
def strFalsy (o : Option String) : Bool :=
  match o with
  | none => true
  | some s => s == ""

/-- computeTotals from src/routes/dispensary.js:
    subtotal = sum of quantity * unitPrice, total = max(0, subtotal + tax - discount). -/
def computeTotals (items : List DispenseItem) (tax discount : Int) : Int × Int :=
  let subtotal := items.foldl (fun sum it => sum + it.quantity * it.unitPrice) 0
  (subtotal, max 0 (subtotal + tax - discount))

/-! ## Medicine resolution (findOne queries of the stock ledger) -/

/-- Index of the first list element satisfying p (models Medicine.findOne,
    which returns the first matching document in natural order). -/
def findIdxP (p : Medicine → Bool) : List Medicine → Option Nat
  | [] => none
  | m :: ms => if p m then some 0 else (findIdxP p ms).map (· + 1)

/-- Medicine.findOne with the exact (name, strength, form) query used by the
    dispensary routes, where the query fills strength and form with
    it.strength || '' and it.form || ''. -/
def exactIdx (meds : List Medicine) (it : DispenseItem) : Option Nat :=
  findIdxP (fun m =>
    m.name == it.name && m.strength == orEmpty it.strength && m.form == orEmpty it.form) meds

/-- Medicine.findOne with the name-only fallback query. -/
def nameIdx (meds : List Medicine) (it : DispenseItem) : Option Nat :=
  findIdxP (fun m => m.name == it.name) meds

/-- Medicine resolution used by PUT /dispenses/:id and POST /dispenses/:id/cancel:
    exact (name, strength, form) first, then name-only fallback. -/
def resolveUpd (meds : List Medicine) (it : DispenseItem) : Option Nat :=
  match exactIdx meds it with
  | some i => some i
  | none => nameIdx meds it

/-- Medicine resolution used by the POST /dispenses stock decrement: the exact
    query is attempted only when it.name is truthy and strength or form is
    truthy; otherwise (and on exact miss) the name-only query runs. -/
def resolveCreate (meds : List Medicine) (it : DispenseItem) : Option Nat :=
  if it.name ≠ "" ∧ (!strFalsy it.strength || !strFalsy it.form) then
    resolveUpd meds it
  else
    nameIdx meds it

/-- Replace the stock of the medicine at index i by f of it. -/
def updateStockAt : List Medicine → Nat → (Int → Int) → List Medicine
  | [], _, _ => []
  | m :: ms, 0, f => { m with stock := f m.stock } :: ms
  | m :: ms, n + 1, f => m :: updateStockAt ms n f

/-- Stock of the medicine at index i (0 when out of range, matching
    Number(med.stock || 0) on a missing value). -/
def stockAt (meds : List Medicine) (i : Nat) : Int :=
  ((meds.get? i).map Medicine.stock).getD 0

/-- One downward stock adjustment, clamped at zero:
    med.stock = Math.max(0, stock - quantity); unmatched items are a no-op. -/
def consumeStep (resolve : List Medicine → DispenseItem → Option Nat)
    (meds : List Medicine) (it : DispenseItem) : List Medicine :=
  match resolve meds it with
  | some i => updateStockAt meds i (fun s => max 0 (s - it.quantity))
  | none => meds

/-- One upward stock adjustment: med.stock = stock + quantity (no clamp);
    unmatched items are a no-op. -/
def restoreStep (meds : List Medicine) (it : DispenseItem) : List Medicine :=
  match resolveUpd meds it with
  | some i => updateStockAt meds i (fun s => s + it.quantity)
  | none => meds

/-- The POST /dispenses stock decrement loop over the item list. -/
def createStockPass (meds : List Medicine) : List DispenseItem → List Medicine
  | [] => meds
  | it :: rest => createStockPass (consumeStep resolveCreate meds it) rest

/-- The consume pass of PUT /dispenses/:id (deduct new items). -/
def consumePass (meds : List Medicine) : List DispenseItem → List Medicine
  | [] => meds
  | it :: rest => consumePass (consumeStep resolveUpd meds it) rest

/-- The restore pass of PUT /dispenses/:id and POST /dispenses/:id/cancel
    (add old items back). -/
def restorePass (meds : List Medicine) : List DispenseItem → List Medicine
  | [] => meds
  | it :: rest => restorePass (restoreStep meds it) rest

/-! ## Dispensary operations -/

/-- Inputs the bill-number generator draws from the environment
    (wall clock, Date.now suffix, random or id suffix). -/
structure BillClock where
  year : Nat
  month : Nat
  day : Nat
  stamp : String
  suffix : String
  deriving DecidableEq, Repr

/-- String(n).padStart(2, '0'). -/
def pad2 (n : Nat) : String := if n < 10 then "0" ++ toString n else toString n

/-- Bill number format YYYYMMDD-timestampSuffix-randomOrIdSuffix used by both
    POST /dispenses and POST /dispenses/:id/pay. -/
def mkBillNumber (c : BillClock) : String :=
  toString c.year ++ pad2 c.month ++ pad2 c.day ++ "-" ++ c.stamp ++ "-" ++ c.suffix

/-- Typed failures of the dispensary routes (HTTP 400/500 bodies in the source). -/
inductive DispError
  | invalidState
  | alreadyCancelled
  | schemaViolation
  deriving DecidableEq, Repr

/-- Payment status recomputation used verbatim by POST /dispenses/:id/pay and
    PUT /dispenses/:id: paid when paidAmount is at least total, else partial
    when paidAmount is positive, else pending. -/
def dispenseStatusCode (paidAmount total : Int) : PayStatus :=
  if paidAmount ≥ total then .paid
  else if paidAmount > 0 then .part
  else .pending

/-- POST /dispenses (after patient/appointment resolution): computes totals,
    generates a bill number eagerly, stores the dispense with status pending
    and paidAmount 0, then runs the stock decrement loop. -/
def createDispense (items : List DispenseItem) (tax discount : Int) (clock : BillClock)
    (meds : List Medicine) : Dispense × List Medicine :=
  let t := computeTotals items tax discount
  let d : Dispense := {
    items := items
    subtotal := t.1
    tax := tax
    discount := discount
    total := t.2
    paymentStatus := .pending
    paidAmount := 0
    billNumber := some (mkBillNumber clock) }
  (d, createStockPass meds items)

/-- POST /dispenses/:id/pay: rejects cancelled dispenses, adds the (merely
    numeric-validated) amount to paidAmount, recomputes the status, assigns a
    bill number only when the field is falsy and the new status is not
    pending, and saves; the mongoose min-0 validator on paidAmount rejects the
    save when the new paidAmount is negative. -/
def payDispense (d : Dispense) (amount : Int) (clock : BillClock) :
    Except DispError Dispense :=
  if d.paymentStatus = .cancelled then .error .invalidState
  else
    let paid := d.paidAmount + amount
    let status := dispenseStatusCode paid d.total
    let bill :=
      if strFalsy d.billNumber ∧ status ≠ .pending then some (mkBillNumber clock)
      else d.billNumber
    if paid < 0 then .error .schemaViolation
    else .ok { d with paidAmount := paid, paymentStatus := status, billNumber := bill }

/-- Update payload of PUT /dispenses/:id (fields absent from the request body
    are none). -/
structure DispenseUpdate where
  items : Option (List DispenseItem) := none
  tax : Option Int := none
  discount : Option Int := none
  deriving DecidableEq, Repr

/-- PUT /dispenses/:id: rejects cancelled dispenses, recomputes totals,
    restores the complete old item list and only then deducts the complete new
    item list, then re-derives the payment status from the unchanged
    paidAmount against the new total. -/
def updateDispense (d : Dispense) (u : DispenseUpdate) (meds : List Medicine) :
    Except DispError (Dispense × List Medicine) :=
  if d.paymentStatus = .cancelled then .error .invalidState
  else
    let oldItems := d.items
    let newItems := u.items.getD d.items
    let tax := u.tax.getD d.tax
    let discount := u.discount.getD d.discount
    let t := computeTotals newItems tax discount
    let meds1 := restorePass meds oldItems
    let meds2 := consumePass meds1 newItems
    let status := dispenseStatusCode d.paidAmount t.2
    .ok ({ d with
      items := newItems
      tax := tax
      discount := discount
      subtotal := t.1
      total := t.2
      paymentStatus := status }, meds2)

/-- POST /dispenses/:id/cancel: one-shot; restores the current item list and
    sets the terminal cancelled status. -/
def cancelDispense (d : Dispense) (meds : List Medicine) :
    Except DispError (Dispense × List Medicine) :=
  if d.paymentStatus = .cancelled then .error .alreadyCancelled
  else .ok ({ d with paymentStatus := .cancelled }, restorePass meds d.items)

/-- The dispensary mutations on one dispense record, as invoked over HTTP. -/
inductive DispOp
  | update (u : DispenseUpdate)
  | pay (amount : Int) (clock : BillClock)
  | cancel
  deriving Repr

/-- Execute one dispensary operation; a rejected operation leaves the record
    and the medicine stocks untouched (the handlers return before any save). -/
def stepDisp (st : Dispense × List Medicine) : DispOp → Dispense × List Medicine
  | .update u =>
    match updateDispense st.1 u st.2 with
    | .ok r => r
    | .error _ => st
  | .pay amount clock =>
    match payDispense st.1 amount clock with
    | .ok d => (d, st.2)
    | .error _ => st
  | .cancel =>
    match cancelDispense st.1 st.2 with
    | .ok r => r
    | .error _ => st

/-- Execute a sequence of dispensary operations. -/
def runDisp (st : Dispense × List Medicine) (ops : List DispOp) :
    Dispense × List Medicine :=
  ops.foldl stepDisp st

end Clinic

namespace Clinic

/-! ## Appointment data model -/

/-- A doctor document; only the fields the appointment routes read.
    consultationFee may be undefined. -/
structure Doctor where
  id : Nat
  consultationFee : Option Int := none
  deriving DecidableEq, Repr

/-- Referenced entities resolved by the appointment routes before the core
    logic runs (patients carry no data the core reads, so only ids). -/
structure Env where
  patients : List Nat
  doctors : List Doctor
  deriving Repr

/-- An appointment document (src/models/Appointment.js); only the fields the
    verified routes read or write. amount has no schema default and may be
    undefined; discount, paymentOnline and paymentOffline default to 0. -/
structure Appt where
  id : Nat
  patient : Nat
  doctor : Nat
  appointmentDate : Int
  appointmentDay : Int
  appointmentTime : String
  dailyToken : Int
  status : ApptStatus
  amount : Option Int
  discount : Int
  paymentOnline : Int
  paymentOffline : Int
  paymentStatus : PayStatus
  deriving DecidableEq, Repr

/-- Models new Date(d) followed by setHours(0,0,0,0): truncate the millisecond
    instant to its enclosing day boundary. -/
def truncDay (t : Int) : Int := t - t.emod 86400000

/-- Payment status derivation written inline in POST /api/appointments and
    PUT /api/appointments/:id: payable = max(0, amount - discount);
    pending when paid is not positive, partial below payable, else paid. -/
def apptDeriveCode (paidAmt amount discount : Int) : PayStatus :=
  let payable := max 0 (amount - discount)
  if paidAmt ≤ 0 then .pending
  else if paidAmt < payable then .part
  else .paid

/-- Typed failures of the appointment routes. -/
inductive ApptError
  | patientNotFound
  | doctorNotFound
  | apptNotFound
  | slotConflict
  | tokenAllocationFailed
  | serverError
  deriving DecidableEq, Repr

/-- Request body of POST /api/appointments (validated fields only; optional
    numeric fields are none when absent). -/
structure ApptInput where
  patient : Nat
  doctor : Nat
  appointmentDate : Int
  appointmentTime : String
  amount : Option Int := none
  discount : Option Int := none
  paymentOnline : Option Int := none
  paymentOffline : Option Int := none
  deriving Repr

/-- The Appointment.findOne conflict query of POST /api/appointments: an
    appointment with the same doctor, exact date and time, status scheduled or
    confirmed. -/
def apptConflict (appts : List Appt) (doctor : Nat) (date : Int) (time : String) : Prop :=
  ∃ a ∈ appts, a.doctor = doctor ∧ a.appointmentDate = date ∧
    a.appointmentTime = time ∧ (a.status = .scheduled ∨ a.status = .confirmed)

instance (appts : List Appt) (doctor : Nat) (date : Int) (time : String) :
    Decidable (apptConflict appts doctor date time) :=
  decidable_of_iff (∃ a ∈ appts, a.doctor = doctor ∧ a.appointmentDate = date ∧
    a.appointmentTime = time ∧ (a.status = .scheduled ∨ a.status = .confirmed)) Iff.rfl

/-- The Appointment.findOne conflict query of PUT /api/appointments/:id, which
    additionally excludes the appointment being updated. -/
def apptConflictExcl (appts : List Appt) (excludeId : Nat) (doctor : Nat)
    (date : Int) (time : String) : Prop :=
  ∃ a ∈ appts, a.id ≠ excludeId ∧ a.doctor = doctor ∧ a.appointmentDate = date ∧
    a.appointmentTime = time ∧ (a.status = .scheduled ∨ a.status = .confirmed)

instance (appts : List Appt) (excludeId doctor : Nat) (date : Int) (time : String) :
    Decidable (apptConflictExcl appts excludeId doctor date time) :=
  decidable_of_iff (∃ a ∈ appts, a.id ≠ excludeId ∧ a.doctor = doctor ∧
    a.appointmentDate = date ∧ a.appointmentTime = time ∧
    (a.status = .scheduled ∨ a.status = .confirmed)) Iff.rfl

/-- Appointment.countDocuments with filter appointmentDay = day. -/
def countDay (appts : List Appt) (day : Int) : Nat :=
  (appts.filter (fun a => a.appointmentDay = day)).length

/-- Appointment.countDocuments with filter appointmentDay = day and id not
    equal to the excluded id. -/
def countDayExcl (appts : List Appt) (day : Int) (excludeId : Nat) : Nat :=
  (appts.filter (fun a => a.appointmentDay = day ∧ a.id ≠ excludeId)).length

/-- Some document already holds the (appointmentDay, dailyToken) pair guarded
    by the unique index in src/models/Appointment.js. -/
def slotTaken (appts : List Appt) (day tok : Int) : Prop :=
  ∃ a ∈ appts, a.appointmentDay = day ∧ a.dailyToken = tok

instance (appts : List Appt) (day tok : Int) : Decidable (slotTaken appts day tok) :=
  decidable_of_iff (∃ a ∈ appts, a.appointmentDay = day ∧ a.dailyToken = tok) Iff.rfl

/-- Some document already holds the given id (the implicit unique index on _id). -/
def idTaken (appts : List Appt) (i : Nat) : Prop := ∃ a ∈ appts, a.id = i

instance (appts : List Appt) (i : Nat) : Decidable (idTaken appts i) :=
  decidable_of_iff (∃ a ∈ appts, a.id = i) Iff.rfl

/-- Model of appointment.save(): the insert succeeds unless a unique index
    (on _id or on (appointmentDay, dailyToken)) is violated, in which case the
    store signals a duplicate-key error (E11000) and nothing is written. -/
def insertAppt (appts : List Appt) (a : Appt) : Option (List Appt) :=
  if idTaken appts a.id ∨ slotTaken appts a.appointmentDay a.dailyToken then none
  else some (appts ++ [a])

/-- The document constructed by POST /api/appointments for a given proposed
    token: paymentStatus is derived from the split payment fields exactly when
    one of them is present in the body, otherwise the schema default pending
    applies; status takes the schema default scheduled. -/
def mkNewAppt (input : ApptInput) (newId : Nat) (day tok : Int) : Appt :=
  let ps :=
    if input.paymentOnline ≠ none ∨ input.paymentOffline ≠ none then
      apptDeriveCode (input.paymentOnline.getD 0 + input.paymentOffline.getD 0)
        (input.amount.getD 0) (input.discount.getD 0)
    else .pending
  { id := newId
    patient := input.patient
    doctor := input.doctor
    appointmentDate := input.appointmentDate
    appointmentDay := day
    appointmentTime := input.appointmentTime
    dailyToken := tok
    status := .scheduled
    amount := input.amount
    discount := input.discount.getD 0
    paymentOnline := input.paymentOnline.getD 0
    paymentOffline := input.paymentOffline.getD 0
    paymentStatus := ps }

/-- The token allocation loop of POST /api/appointments: up to fuel attempts,
    each recounting the day and proposing count + 1, retrying on duplicate-key
    errors from save. -/
def createLoop (appts : List Appt) (input : ApptInput) (newId : Nat) (day : Int) :
    Nat → Option (Appt × List Appt)
  | 0 => none
  | fuel + 1 =>
    let count := countDay appts day
    let a := mkNewAppt input newId day ((count : Int) + 1)
    match insertAppt appts a with
    | some s => some (a, s)
    | none => createLoop appts input newId day fuel

/-- POST /api/appointments after request validation: checks the referenced
    patient and doctor, rejects on a slot conflict, truncates the day, then
    runs the token allocation loop with 3 attempts; exhausting the attempts
    surfaces the token allocation failure. -/
def createAppointment (env : Env) (appts : List Appt) (input : ApptInput)
    (newId : Nat) : Except ApptError (Appt × List Appt) :=
  if ¬ input.patient ∈ env.patients then .error .patientNotFound
  else if (env.doctors.find? (fun dr => dr.id == input.doctor)) = none then
    .error .doctorNotFound
  else if apptConflict appts input.doctor input.appointmentDate input.appointmentTime then
    .error .slotConflict
  else
    let day := truncDay input.appointmentDate
    match createLoop appts input newId day 3 with
    | some (a, s) => .ok (a, s)
    | none => .error .tokenAllocationFailed

end Clinic

namespace Clinic

/-- Update payload of PUT /api/appointments/:id (fields absent from the body
    are none). -/
structure ApptUpdate where
  patient : Option Nat := none
  doctor : Option Nat := none
  appointmentDate : Option Int := none
  appointmentTime : Option String := none
  status : Option ApptStatus := none
  amount : Option Int := none
  discount : Option Int := none
  paymentOnline : Option Int := none
  paymentOffline : Option Int := none
  deriving Repr

/-- The payment status recomputation block of PUT /api/appointments/:id,
    identical in both branches: it runs exactly when one of the four payment
    fields is present in the body, combining present fields with the stored
    document (missing stored amount counts as 0). -/
def updPayStatus (current : Appt) (u : ApptUpdate) : Option PayStatus :=
  if u.paymentOnline ≠ none ∨ u.paymentOffline ≠ none ∨
      u.amount ≠ none ∨ u.discount ≠ none then
    some (apptDeriveCode
      (u.paymentOnline.getD current.paymentOnline +
        u.paymentOffline.getD current.paymentOffline)
      (u.amount.getD (current.amount.getD 0))
      (u.discount.getD current.discount))
  else none

/-- The document produced by findByIdAndUpdate on the stored appointment:
    present body fields overwrite stored ones; dayTok carries the recomputed
    (appointmentDay, dailyToken) pair when the date is changing; ps the
    recomputed payment status when the recomputation ran. -/
def applyBody (a : Appt) (u : ApptUpdate) (dayTok : Option (Int × Int))
    (ps : Option PayStatus) : Appt :=
  { a with
    patient := u.patient.getD a.patient
    doctor := u.doctor.getD a.doctor
    appointmentDate := u.appointmentDate.getD a.appointmentDate
    appointmentTime := u.appointmentTime.getD a.appointmentTime
    appointmentDay := (dayTok.map Prod.fst).getD a.appointmentDay
    dailyToken := (dayTok.map Prod.snd).getD a.dailyToken
    status := u.status.getD a.status
    amount := match u.amount with | some v => some v | none => a.amount
    discount := u.discount.getD a.discount
    paymentOnline := u.paymentOnline.getD a.paymentOnline
    paymentOffline := u.paymentOffline.getD a.paymentOffline
    paymentStatus := ps.getD a.paymentStatus }

/-- Some document other than the excluded one already holds the given
    (appointmentDay, dailyToken) pair. -/
def slotTakenExcl (appts : List Appt) (excludeId : Nat) (day tok : Int) : Prop :=
  ∃ b ∈ appts, b.id ≠ excludeId ∧ b.appointmentDay = day ∧ b.dailyToken = tok

instance (appts : List Appt) (excludeId : Nat) (day tok : Int) :
    Decidable (slotTakenExcl appts excludeId day tok) :=
  decidable_of_iff (∃ b ∈ appts, b.id ≠ excludeId ∧ b.appointmentDay = day ∧
    b.dailyToken = tok) Iff.rfl

/-- Model of findByIdAndUpdate persisting the updated document: the store
    rejects it with a duplicate-key error when another document holds the new
    (appointmentDay, dailyToken) pair, and writes nothing in that case. -/
def saveUpdated (appts : List Appt) (id : Nat) (a : Appt) : Option (List Appt) :=
  if slotTakenExcl appts id a.appointmentDay a.dailyToken then none
  else some (appts.map (fun b => if b.id = id then a else b))

/-- The token reallocation loop of PUT /api/appointments/:id when the date is
    changing: up to fuel attempts, each recounting the target day with the
    updated appointment excluded and proposing count + 1, retrying on
    duplicate-key errors. -/
def updateLoop (appts : List Appt) (id : Nat) (current : Appt) (u : ApptUpdate)
    (day : Int) : Nat → Except ApptError (Appt × List Appt)
  | 0 => .error .tokenAllocationFailed
  | fuel + 1 =>
    let count := countDayExcl appts day id
    let a := applyBody current u (some (day, (count : Int) + 1)) (updPayStatus current u)
    match saveUpdated appts id a with
    | some s => .ok (a, s)
    | none => updateLoop appts id current u day fuel

/-- The tail of PUT /api/appointments/:id after the conflict check: a date
    change reruns day truncation and the token loop (3 attempts); otherwise
    the body is applied directly, any store error surfacing as a 500. -/
def updateWrite (appts : List Appt) (id : Nat) (current : Appt) (u : ApptUpdate) :
    Except ApptError (Appt × List Appt) :=
  match u.appointmentDate with
  | some newDate => updateLoop appts id current u (truncDay newDate) 3
  | none =>
    let a := applyBody current u none (updPayStatus current u)
    match saveUpdated appts id a with
    | some s => .ok (a, s)
    | none => .error .serverError

/-- The conflict check of PUT /api/appointments/:id: it runs exactly when
    doctor, date or time is part of the change set, against the effective
    post-update doctor, date and time, excluding the updated appointment. -/
def updateAfterDoctor (appts : List Appt) (id : Nat) (current : Appt)
    (u : ApptUpdate) (effDoctor : Nat) : Except ApptError (Appt × List Appt) :=
  if u.appointmentDate ≠ none ∨ u.appointmentTime ≠ none ∨ u.doctor ≠ none then
    let cDate := u.appointmentDate.getD current.appointmentDate
    let cTime := u.appointmentTime.getD current.appointmentTime
    let cDoc := if u.doctor ≠ none then effDoctor else current.doctor
    if apptConflictExcl appts id cDoc cDate cTime then .error .slotConflict
    else updateWrite appts id current u
  else updateWrite appts id current u

/-- The effective update body after the amount defaulting of
    PUT /api/appointments/:id: on a doctor change with no explicit amount and
    a defined consultation fee, the body's amount becomes the new doctor's
    consultation fee. -/
def effUpdate (env : Env) (u : ApptUpdate) : ApptUpdate :=
  match u.doctor with
  | some did =>
    match env.doctors.find? (fun dr => dr.id == did) with
    | some newDoc =>
      if u.amount = none ∧ newDoc.consultationFee ≠ none then
        { u with amount := newDoc.consultationFee }
      else u
    | none => u
  | none => u

/-- PUT /api/appointments/:id after request validation: fetches the stored
    appointment, validates a changed patient or doctor reference, defaults a
    missing amount to the new doctor's consultation fee on a doctor change,
    runs the conflict check, and writes. -/
def updateAppointment (env : Env) (appts : List Appt) (id : Nat) (u : ApptUpdate) :
    Except ApptError (Appt × List Appt) :=
  match appts.find? (fun a => a.id == id) with
  | none => .error .apptNotFound
  | some current =>
    if u.patient.any (fun p => !(env.patients.contains p)) then .error .patientNotFound
    else
      match u.doctor with
      | some did =>
        match env.doctors.find? (fun dr => dr.id == did) with
        | none => .error .doctorNotFound
        | some _ => updateAfterDoctor appts id current (effUpdate env u) did
      | none => updateAfterDoctor appts id current u current.doctor

/-- DELETE /api/appointments/:id: physical removal of the document. -/
def deleteAppointment (appts : List Appt) (id : Nat) : Except ApptError (List Appt) :=
  if idTaken appts id then .ok (appts.filter (fun a => a.id ≠ id))
  else .error .apptNotFound

/-- The appointment mutations, as invoked over HTTP. -/
inductive ApptOp
  | create (input : ApptInput) (newId : Nat)
  | update (id : Nat) (u : ApptUpdate)
  | delete (id : Nat)
  deriving Repr

/-- Execute one appointment operation; a rejected operation leaves the
    collection untouched. -/
def stepAppt (env : Env) (appts : List Appt) : ApptOp → List Appt
  | .create input newId =>
    match createAppointment env appts input newId with
    | .ok (_, s) => s
    | .error _ => appts
  | .update id u =>
    match updateAppointment env appts id u with
    | .ok (_, s) => s
    | .error _ => appts
  | .delete id =>
    match deleteAppointment appts id with
    | .ok s => s
    | .error _ => appts

/-- Execute a sequence of appointment operations. -/
def runAppts (env : Env) (appts : List Appt) (ops : List ApptOp) : List Appt :=
  ops.foldl (stepAppt env) appts

end Clinic

namespace Clinic

/-! ## The payment status engine of the specification -/

/-- Spec-side definition, written from the spec text of section 4.3 for
    comparison with the code paths: payable = max(0, amount - discount);
    paid at most 0 gives pending, paid strictly between 0 and payable gives
    partial, paid at least payable gives paid. -/
def derivePS (paidAmt amount discount : Int) : PayStatus :=
  let payable := max 0 (amount - discount)
  if paidAmt ≤ 0 then .pending
  else if paidAmt < payable then .part
  else .paid

/-- The dispensary status recomputation agrees with the spec engine at zero
    discount whenever the paid amount is positive or strictly below total. -/
theorem dispenseStatusCode_eq_derivePS (paidAmt total : Int)
    (h : 0 < paidAmt ∨ paidAmt < total) :
    dispenseStatusCode paidAmt total = derivePS paidAmt total 0 := by
  unfold dispenseStatusCode derivePS
  rcases h with h | h
  · rcases le_or_lt total paidAmt with ht | ht
    · rw [if_pos ht, if_neg (by omega)]
      have : ¬ paidAmt < max 0 (total - 0) := by
        rcases le_or_lt total 0 with h0 | h0
        · simpa using by omega
        · simpa using by omega
      rw [if_neg this]
    · rw [if_neg (by omega), if_pos h, if_neg (by omega)]
      have : paidAmt < max 0 (total - 0) := by
        have : paidAmt < total := ht
        simp only [sub_zero]
        omega
      rw [if_pos this]
  · rcases le_or_lt paidAmt 0 with h0 | h0
    · rw [if_neg (by omega), if_neg (by omega), if_pos h0]
    · rw [if_neg (by omega), if_pos h0, if_neg (by omega)]
      have : paidAmt < max 0 (total - 0) := by simp only [sub_zero]; omega
      rw [if_pos this]

/-- At the boundary where paid is at most 0 and total at most paid, the
    dispensary recomputation says paid. -/
theorem dispenseStatusCode_boundary (paidAmt total : Int)
    (h1 : paidAmt ≤ 0) (h2 : total ≤ paidAmt) :
    dispenseStatusCode paidAmt total = .paid := by
  unfold dispenseStatusCode
  rw [if_pos h2]

/-! ## Shared concrete fixtures -/

/-- A fixed bill-number environment for concrete runs. -/
def clockW : BillClock :=
  { year := 2026, month := 1, day := 2, stamp := "123456", suffix := "abcde" }

end Clinic

namespace Clinic

/-! ## C1: bill number lifecycle -/

/-- Dispense created with one item and no payment, against an empty catalog. -/
def c1Dispense : Dispense :=
  (createDispense [{ name := "Paracetamol", quantity := 2, unitPrice := 5 }] 0 0 clockW []).1

/-- C1 counterexample: the claim says a dispense created with zero payment has
    an undefined or empty bill number immediately after creation; in the code
    POST /dispenses generates a bill number eagerly, so the freshly created
    record has paidAmount 0 and pending status yet a non-empty bill number. -/
theorem c1_counterexample :
    c1Dispense.paidAmount = 0 ∧ c1Dispense.paymentStatus = .pending ∧
    c1Dispense.billNumber = some "20260102-123456-abcde" ∧
    c1Dispense.billNumber ≠ none ∧ c1Dispense.billNumber ≠ some "" := by
  refine ⟨rfl, rfl, rfl, by decide, by decide⟩

theorem mkBillNumber_ne_empty (c : BillClock) : mkBillNumber c ≠ "" := by
  unfold mkBillNumber
  intro h
  have hl := congrArg String.length h
  have h0 : String.length "" = 0 := rfl
  have h1 : String.length "-" = 1 := rfl
  simp only [String.length_append, h0, h1] at hl
  omega

/-- Equation for POST /dispenses/:id/pay on a non-cancelled record whose new
    paid amount passes the schema validator. -/
theorem payDispense_eq (d : Dispense) (amount : Int) (clock : BillClock)
    (hc : d.paymentStatus ≠ .cancelled) (hneg : ¬ d.paidAmount + amount < 0) :
    payDispense d amount clock = .ok { d with
      paidAmount := d.paidAmount + amount
      paymentStatus := dispenseStatusCode (d.paidAmount + amount) d.total
      billNumber :=
        if strFalsy d.billNumber ∧
            dispenseStatusCode (d.paidAmount + amount) d.total ≠ .pending
        then some (mkBillNumber clock) else d.billNumber } := by
  simp only [payDispense, if_neg hc, if_neg hneg]

/-- Equation for PUT /dispenses/:id on a non-cancelled record. -/
theorem updateDispense_eq (d : Dispense) (u : DispenseUpdate) (meds : List Medicine)
    (hc : d.paymentStatus ≠ .cancelled) :
    updateDispense d u meds = .ok ({ d with
      items := u.items.getD d.items
      tax := u.tax.getD d.tax
      discount := u.discount.getD d.discount
      subtotal := (computeTotals (u.items.getD d.items) (u.tax.getD d.tax)
        (u.discount.getD d.discount)).1
      total := (computeTotals (u.items.getD d.items) (u.tax.getD d.tax)
        (u.discount.getD d.discount)).2
      paymentStatus := dispenseStatusCode d.paidAmount
        (computeTotals (u.items.getD d.items) (u.tax.getD d.tax)
          (u.discount.getD d.discount)).2 },
      consumePass (restorePass meds d.items) (u.items.getD d.items)) := by
  simp only [updateDispense, if_neg hc]

/-- Equation for POST /dispenses/:id/cancel on a non-cancelled record. -/
theorem cancelDispense_eq (d : Dispense) (meds : List Medicine)
    (hc : d.paymentStatus ≠ .cancelled) :
    cancelDispense d meds
      = .ok ({ d with paymentStatus := .cancelled }, restorePass meds d.items) := by
  simp only [cancelDispense, if_neg hc]

/-- C1 amended: the bill number is assigned exactly once, eagerly at creation
    (non-empty even with zero payment); the pay path would assign one only to
    a record whose bill number field is falsy and otherwise preserves it, and
    update and cancel never touch it. -/
theorem c1_bill_number_stable :
    (∀ items tax discount clock meds,
      (createDispense items tax discount clock meds).1.billNumber
          = some (mkBillNumber clock) ∧
        mkBillNumber clock ≠ "") ∧
    (∀ d s amount clock d', d.billNumber = some s → s ≠ "" →
      payDispense d amount clock = .ok d' → d'.billNumber = some s) ∧
    (∀ d u meds r, updateDispense d u meds = .ok r → r.1.billNumber = d.billNumber) ∧
    (∀ d meds r, cancelDispense d meds = .ok r → r.1.billNumber = d.billNumber) := by
  refine ⟨fun items tax discount clock meds => ⟨rfl, mkBillNumber_ne_empty clock⟩,
    ?_, ?_, ?_⟩
  · intro d s amount clock d' hs hne hpay
    have hf2 : strFalsy (some s) = false := by
      unfold strFalsy; simpa using hne
    by_cases hc : d.paymentStatus = .cancelled
    · simp [payDispense, hc] at hpay
    · by_cases hneg : d.paidAmount + amount < 0
      · simp [payDispense, hc, hneg] at hpay
      · rw [payDispense_eq d amount clock hc hneg] at hpay
        simp only [Except.ok.injEq] at hpay
        rw [← hpay]
        simp [hs, hf2]
  · intro d u meds r hupd
    by_cases hc : d.paymentStatus = .cancelled
    · simp [updateDispense, hc] at hupd
    · rw [updateDispense_eq d u meds hc] at hupd
      simp only [Except.ok.injEq] at hupd
      rw [← hupd]
  · intro d meds r hcan
    by_cases hc : d.paymentStatus = .cancelled
    · simp [cancelDispense, hc] at hcan
    · rw [cancelDispense_eq d meds hc] at hcan
      simp only [Except.ok.injEq] at hcan
      rw [← hcan]

/-- Witness for c1_bill_number_stable at concrete inputs: the first conjunct
    at a concrete creation and the pay conjunct at a concrete record. -/
theorem c1_bill_number_stable_witness :
    (createDispense [{ name := "X", quantity := 1, unitPrice := 3 }] 0 0 clockW []).1.billNumber
        = some (mkBillNumber clockW) ∧
      c1Dispense.billNumber = some "20260102-123456-abcde" := by
  refine ⟨(c1_bill_number_stable.1 [{ name := "X", quantity := 1, unitPrice := 3 }] 0 0 clockW []).1, rfl⟩

end Clinic

namespace Clinic

/-! ## C4: payment status engine -/

/-- The inline derivation of the appointment routes coincides with the spec
    engine on all inputs. -/
theorem apptDeriveCode_eq_derivePS (paidAmt amount discount : Int) :
    apptDeriveCode paidAmt amount discount = derivePS paidAmt amount discount := rfl

/-- A dispense with zero total and zero paid amount. -/
def c4Zero : Dispense :=
  { items := [{ name := "X", quantity := 1, unitPrice := 0 }]
    subtotal := 0, tax := 0, discount := 0, total := 0
    paymentStatus := .pending, paidAmount := 0, billNumber := some "B" }

/-- C4 counterexample: at the boundary paid = 0 with payable = 0 the dispense
    pay path yields paid (it checks paidAmount at least total first), while
    the spec engine and the appointment derivation yield pending, so the
    dispense paths do not realize derive and disagree with the appointment
    paths there. -/
theorem c4_counterexample :
    payDispense c4Zero 0 clockW = .ok { c4Zero with paymentStatus := .paid } ∧
    derivePS 0 c4Zero.total 0 = .pending ∧
    apptDeriveCode 0 0 0 = .pending := by
  exact ⟨rfl, rfl, rfl⟩

/-- C4 amended: the appointment creation and update derivations yield exactly
    the spec engine on the effective paid, amount and discount; the dispense
    pay and update recomputations yield the spec engine at zero discount
    whenever the paid amount is positive or strictly below the (new) total,
    but at the boundary where paid is at most 0 and total at most paid they
    yield paid where the spec engine yields pending. -/
theorem c4_payment_status_engine :
    (∀ input newId day tok,
      (input.paymentOnline ≠ none ∨ input.paymentOffline ≠ none) →
      (mkNewAppt input newId day tok).paymentStatus
        = derivePS (input.paymentOnline.getD 0 + input.paymentOffline.getD 0)
            (input.amount.getD 0) (input.discount.getD 0)) ∧
    (∀ current u ps, updPayStatus current u = some ps →
      ps = derivePS
        (u.paymentOnline.getD current.paymentOnline
          + u.paymentOffline.getD current.paymentOffline)
        (u.amount.getD (current.amount.getD 0)) (u.discount.getD current.discount)) ∧
    (∀ d amount clock d', payDispense d amount clock = .ok d' →
      ((0 < d.paidAmount + amount ∨ d.paidAmount + amount < d.total) →
        d'.paymentStatus = derivePS (d.paidAmount + amount) d.total 0) ∧
      (d.paidAmount + amount ≤ 0 → d.total ≤ d.paidAmount + amount →
        d'.paymentStatus = .paid ∧ derivePS (d.paidAmount + amount) d.total 0 = .pending)) ∧
    (∀ d u meds r, updateDispense d u meds = .ok r →
      ((0 < d.paidAmount ∨ d.paidAmount < r.1.total) →
        r.1.paymentStatus = derivePS d.paidAmount r.1.total 0) ∧
      (d.paidAmount ≤ 0 → r.1.total ≤ d.paidAmount →
        r.1.paymentStatus = .paid ∧ derivePS d.paidAmount r.1.total 0 = .pending)) := by
  refine ⟨?_, ?_, ?_, ?_⟩
  · intro input newId day tok hpresent
    unfold mkNewAppt
    simp only [if_pos hpresent]
    exact apptDeriveCode_eq_derivePS _ _ _
  · intro current u ps hps
    unfold updPayStatus at hps
    split at hps
    · simp only [Option.some.injEq] at hps
      rw [← hps]
      exact apptDeriveCode_eq_derivePS _ _ _
    · exact absurd hps (by simp)
  · intro d amount clock d' hpay
    by_cases hc : d.paymentStatus = .cancelled
    · simp [payDispense, hc] at hpay
    · by_cases hneg : d.paidAmount + amount < 0
      · simp [payDispense, hc, hneg] at hpay
      · rw [payDispense_eq d amount clock hc hneg] at hpay
        simp only [Except.ok.injEq] at hpay
        constructor
        · intro hside
          rw [← hpay]
          exact dispenseStatusCode_eq_derivePS _ _ hside
        · intro h1 h2
          rw [← hpay]
          refine ⟨dispenseStatusCode_boundary _ _ h1 h2, ?_⟩
          unfold derivePS
          rw [if_pos h1]
  · intro d u meds r hupd
    by_cases hc : d.paymentStatus = .cancelled
    · simp [updateDispense, hc] at hupd
    · rw [updateDispense_eq d u meds hc] at hupd
      simp only [Except.ok.injEq] at hupd
      rw [← hupd]
      constructor
      · intro hside
        exact dispenseStatusCode_eq_derivePS _ _ hside
      · intro h1 h2
        refine ⟨dispenseStatusCode_boundary _ _ h1 h2, ?_⟩
        unfold derivePS
        rw [if_pos h1]

/-- An appointment-creation body with split payment fields present. -/
def c4Input : ApptInput :=
  { patient := 1, doctor := 2, appointmentDate := 0, appointmentTime := "10:00"
    amount := some 100, paymentOnline := some 50 }

/-- A partially paid dispense used to exercise the pay recomputation. -/
def c4PayFixture : Dispense :=
  { items := [], subtotal := 10, tax := 0, discount := 0, total := 10
    paymentStatus := .part, paidAmount := 2, billNumber := some "B" }

/-- Witness for c4_payment_status_engine at concrete inputs. -/
theorem c4_payment_status_engine_witness :
    (mkNewAppt c4Input 1 0 1).paymentStatus = derivePS 50 100 0 ∧
    ({ c4PayFixture with paidAmount := 7, paymentStatus := .part } : Dispense).paymentStatus
      = derivePS 7 10 0 := by
  constructor
  · exact c4_payment_status_engine.1 c4Input 1 0 1 (by simp [c4Input])
  · have hpay : payDispense c4PayFixture 5 clockW
        = .ok { c4PayFixture with paidAmount := 7, paymentStatus := .part } := rfl
    exact (c4_payment_status_engine.2.2.1 c4PayFixture 5 clockW _ hpay).1 (by decide)

/-! ## C9: paidAmount monotonicity -/

/-- A partially paid dispense. -/
def c9Part : Dispense :=
  { items := [], subtotal := 10, tax := 0, discount := 0, total := 10
    paymentStatus := .part, paidAmount := 5, billNumber := some "B" }

/-- C9 counterexample: the pay endpoint validates the amount only as numeric,
    so a pay request with amount -3 on a record with paidAmount 5 is accepted
    and decreases paidAmount to 2. -/
theorem c9_counterexample :
    payDispense c9Part (-3) clockW = .ok { c9Part with paidAmount := 2 } ∧
    ({ c9Part with paidAmount := 2 } : Dispense).paidAmount < c9Part.paidAmount := by
  exact ⟨rfl, by decide⟩

/-- C9 amended: an accepted pay adds exactly the request amount (any numeric
    value, positivity is not validated) and the schema validator keeps the
    result non-negative; hence paidAmount is monotonically non-decreasing
    under pays with non-negative amounts, while update and cancel never
    change it — but a negative-amount pay that keeps it non-negative is
    accepted and decreases it. -/
theorem c9_paid_amount :
    (∀ d amount clock d', payDispense d amount clock = .ok d' →
      d'.paidAmount = d.paidAmount + amount ∧ 0 ≤ d'.paidAmount) ∧
    (∀ d amount clock d', 0 ≤ amount → payDispense d amount clock = .ok d' →
      d.paidAmount ≤ d'.paidAmount) ∧
    (∀ d u meds r, updateDispense d u meds = .ok r → r.1.paidAmount = d.paidAmount) ∧
    (∀ d meds r, cancelDispense d meds = .ok r → r.1.paidAmount = d.paidAmount) := by
  have key : ∀ d amount clock d', payDispense d amount clock = .ok d' →
      d'.paidAmount = d.paidAmount + amount ∧ 0 ≤ d'.paidAmount := by
    intro d amount clock d' hpay
    by_cases hc : d.paymentStatus = .cancelled
    · simp [payDispense, hc] at hpay
    · by_cases hneg : d.paidAmount + amount < 0
      · simp [payDispense, hc, hneg] at hpay
      · rw [payDispense_eq d amount clock hc hneg] at hpay
        simp only [Except.ok.injEq] at hpay
        rw [← hpay]
        refine ⟨rfl, ?_⟩
        show 0 ≤ d.paidAmount + amount
        omega
  refine ⟨key, ?_, ?_, ?_⟩
  · intro d amount clock d' hpos hpay
    have := (key d amount clock d' hpay).1
    omega
  · intro d u meds r hupd
    by_cases hc : d.paymentStatus = .cancelled
    · simp [updateDispense, hc] at hupd
    · rw [updateDispense_eq d u meds hc] at hupd
      simp only [Except.ok.injEq] at hupd
      rw [← hupd]
  · intro d meds r hcan
    by_cases hc : d.paymentStatus = .cancelled
    · simp [cancelDispense, hc] at hcan
    · rw [cancelDispense_eq d meds hc] at hcan
      simp only [Except.ok.injEq] at hcan
      rw [← hcan]

/-- Witness for c9_paid_amount at concrete inputs. -/
theorem c9_paid_amount_witness :
    ({ c9Part with paidAmount := 10, paymentStatus := .paid } : Dispense).paidAmount
        = c9Part.paidAmount + 5 ∧
      c9Part.paidAmount ≤ ({ c9Part with paidAmount := 10, paymentStatus := .paid } : Dispense).paidAmount := by
  have hpay : payDispense c9Part 5 clockW
      = .ok { c9Part with paidAmount := 10, paymentStatus := .paid } := rfl
  exact ⟨(c9_paid_amount.1 c9Part 5 clockW _ hpay).1,
    c9_paid_amount.2.1 c9Part 5 clockW _ (by decide) hpay⟩

/-! ## C8: cancelled is terminal -/

/-- Every dispensary operation on a cancelled record is rejected and changes
    nothing. -/
theorem stepDisp_cancelled (d : Dispense) (meds : List Medicine)
    (h : d.paymentStatus = .cancelled) (op : DispOp) :
    stepDisp (d, meds) op = (d, meds) := by
  cases op with
  | update u => simp [stepDisp, updateDispense, h]
  | pay amount clock => simp [stepDisp, payDispense, h]
  | cancel => simp [stepDisp, cancelDispense, h]

/-- C8: once a dispense is cancelled, update, pay and cancel are all rejected
    with an invalid-state error, and no sequence of dispensary operations
    changes the record (in particular its status stays cancelled) or any
    medicine stock. -/
theorem c8_cancelled_terminal (d : Dispense) (meds : List Medicine)
    (h : d.paymentStatus = .cancelled) :
    (∀ u, updateDispense d u meds = .error .invalidState) ∧
    (∀ amount clock, payDispense d amount clock = .error .invalidState) ∧
    cancelDispense d meds = .error .alreadyCancelled ∧
    ∀ ops, runDisp (d, meds) ops = (d, meds) := by
  refine ⟨fun u => by simp [updateDispense, h],
    fun amount clock => by simp [payDispense, h],
    by simp [cancelDispense, h], ?_⟩
  intro ops
  induction ops with
  | nil => rfl
  | cons op rest ih =>
    have hstep := stepDisp_cancelled d meds h op
    simp only [runDisp, List.foldl_cons, hstep]
    exact ih

/-- A cancelled dispense over a one-medicine catalog. -/
def c8Cancelled : Dispense :=
  { items := [{ name := "Amoxicillin", quantity := 2, unitPrice := 4 }]
    subtotal := 8, tax := 0, discount := 0, total := 8
    paymentStatus := .cancelled, paidAmount := 3, billNumber := some "B" }

/-- Witness for c8_cancelled_terminal at concrete inputs. -/
theorem c8_cancelled_terminal_witness :
    runDisp (c8Cancelled, [{ name := "Amoxicillin", strength := "", form := "", stock := 9 }])
        [DispOp.pay 5 clockW, DispOp.cancel, DispOp.update {}]
      = (c8Cancelled, [{ name := "Amoxicillin", strength := "", form := "", stock := 9 }]) := by
  exact (c8_cancelled_terminal c8Cancelled _ rfl).2.2.2 _

end Clinic

namespace Clinic

/-! ## Token allocation lemmas (create path) -/

theorem mkNewAppt_id (input : ApptInput) (newId : Nat) (day tok : Int) :
    (mkNewAppt input newId day tok).id = newId := rfl

theorem mkNewAppt_day (input : ApptInput) (newId : Nat) (day tok : Int) :
    (mkNewAppt input newId day tok).appointmentDay = day := rfl

theorem mkNewAppt_token (input : ApptInput) (newId : Nat) (day tok : Int) :
    (mkNewAppt input newId day tok).dailyToken = tok := rfl

/-- When the proposed (day, count + 1) slot and the new id are free, the first
    save attempt of the creation loop succeeds with token count + 1. -/
theorem createLoop_success (appts : List Appt) (input : ApptInput) (newId : Nat)
    (day : Int) (fuel : Nat)
    (hid : ¬ idTaken appts newId)
    (hslot : ¬ slotTaken appts day ((countDay appts day : Int) + 1)) :
    createLoop appts input newId day (fuel + 1)
      = some (mkNewAppt input newId day ((countDay appts day : Int) + 1),
          appts ++ [mkNewAppt input newId day ((countDay appts day : Int) + 1)]) := by
  have hguard : ¬ (idTaken appts (mkNewAppt input newId day ((countDay appts day : Int) + 1)).id
      ∨ slotTaken appts
        (mkNewAppt input newId day ((countDay appts day : Int) + 1)).appointmentDay
        (mkNewAppt input newId day ((countDay appts day : Int) + 1)).dailyToken) := by
    rw [mkNewAppt_id, mkNewAppt_day, mkNewAppt_token]
    exact fun h => h.elim hid hslot
  simp only [createLoop, insertAppt, if_neg hguard]

/-- When some document already holds (day, count + 1), every attempt of the
    creation loop hits the duplicate-key error, so the loop exhausts any fuel. -/
theorem createLoop_taken (appts : List Appt) (input : ApptInput) (newId : Nat)
    (day : Int)
    (hslot : slotTaken appts day ((countDay appts day : Int) + 1)) :
    ∀ fuel, createLoop appts input newId day fuel = none := by
  intro fuel
  induction fuel with
  | zero => rfl
  | succ n ih =>
    have hguard : idTaken appts (mkNewAppt input newId day ((countDay appts day : Int) + 1)).id
        ∨ slotTaken appts
          (mkNewAppt input newId day ((countDay appts day : Int) + 1)).appointmentDay
          (mkNewAppt input newId day ((countDay appts day : Int) + 1)).dailyToken := by
      rw [mkNewAppt_day, mkNewAppt_token]
      exact Or.inr hslot
    simp only [createLoop, insertAppt, if_pos hguard]
    exact ih

/-- Any successful exit of the creation loop inserted the freshly built
    document with token count + 1 at the end of the collection, and only when
    neither unique index was violated. -/
theorem createLoop_ok (appts : List Appt) (input : ApptInput) (newId : Nat)
    (day : Int) (fuel : Nat) (a : Appt) (s : List Appt) :
    createLoop appts input newId day fuel = some (a, s) →
    a = mkNewAppt input newId day ((countDay appts day : Int) + 1) ∧
    s = appts ++ [a] ∧ ¬ idTaken appts newId ∧
    ¬ slotTaken appts day ((countDay appts day : Int) + 1) := by
  induction fuel with
  | zero => intro h; exact absurd h (by simp [createLoop])
  | succ n ih =>
    intro h
    by_cases hguard : idTaken appts (mkNewAppt input newId day ((countDay appts day : Int) + 1)).id
        ∨ slotTaken appts
          (mkNewAppt input newId day ((countDay appts day : Int) + 1)).appointmentDay
          (mkNewAppt input newId day ((countDay appts day : Int) + 1)).dailyToken
    · simp only [createLoop, insertAppt, if_pos hguard] at h
      exact ih h
    · simp only [createLoop, insertAppt, if_neg hguard] at h
      rw [mkNewAppt_id, mkNewAppt_day, mkNewAppt_token] at hguard
      push_neg at hguard
      simp only [Option.some.injEq, Prod.mk.injEq] at h
      exact ⟨h.1.symm, by rw [← h.2, h.1], hguard.1, hguard.2⟩

/-- With valid references and no slot conflict, POST /api/appointments reduces
    to the token allocation loop with 3 attempts. -/
theorem createAppointment_eq (env : Env) (appts : List Appt) (input : ApptInput)
    (newId : Nat)
    (hp : input.patient ∈ env.patients)
    (hd : (env.doctors.find? (fun dr => dr.id == input.doctor)) ≠ none)
    (hc : ¬ apptConflict appts input.doctor input.appointmentDate input.appointmentTime) :
    createAppointment env appts input newId
      = match createLoop appts input newId (truncDay input.appointmentDate) 3 with
        | some (a, s) => .ok (a, s)
        | none => .error .tokenAllocationFailed := by
  simp only [createAppointment, if_neg (not_not_intro hp), if_neg hd, if_neg hc]

/-- A rejected creation writes nothing. -/
theorem stepAppt_create_error (env : Env) (appts : List Appt) (input : ApptInput)
    (newId : Nat) (e : ApptError)
    (h : createAppointment env appts input newId = .error e) :
    stepAppt env appts (.create input newId) = appts := by
  simp [stepAppt, h]

/-- A rejected update writes nothing. -/
theorem stepAppt_update_error (env : Env) (appts : List Appt) (id : Nat)
    (u : ApptUpdate) (e : ApptError)
    (h : updateAppointment env appts id u = .error e) :
    stepAppt env appts (.update id u) = appts := by
  simp [stepAppt, h]

end Clinic

namespace Clinic

/-! ## Token allocation lemmas (update path) -/

theorem applyBody_id (a : Appt) (u : ApptUpdate) (dayTok : Option (Int × Int))
    (ps : Option PayStatus) : (applyBody a u dayTok ps).id = a.id := rfl

theorem applyBody_day (a : Appt) (u : ApptUpdate) (day tok : Int)
    (ps : Option PayStatus) :
    (applyBody a u (some (day, tok)) ps).appointmentDay = day := rfl

theorem applyBody_token (a : Appt) (u : ApptUpdate) (day tok : Int)
    (ps : Option PayStatus) :
    (applyBody a u (some (day, tok)) ps).dailyToken = tok := rfl

/-- When another document already holds (day, count-excluding-self + 1),
    every attempt of the reallocation loop hits the duplicate-key error. -/
theorem updateLoop_taken (appts : List Appt) (id : Nat) (current : Appt)
    (u : ApptUpdate) (day : Int)
    (hslot : slotTakenExcl appts id day ((countDayExcl appts day id : Int) + 1)) :
    ∀ fuel, updateLoop appts id current u day fuel = .error .tokenAllocationFailed := by
  intro fuel
  induction fuel with
  | zero => rfl
  | succ n ih =>
    have hguard : slotTakenExcl appts id
        (applyBody current u (some (day, (countDayExcl appts day id : Int) + 1))
          (updPayStatus current u)).appointmentDay
        (applyBody current u (some (day, (countDayExcl appts day id : Int) + 1))
          (updPayStatus current u)).dailyToken := by
      rw [applyBody_day, applyBody_token]
      exact hslot
    simp only [updateLoop, saveUpdated, if_pos hguard]
    exact ih

/-- When the proposed (day, count-excluding-self + 1) pair is held by no other
    document, the first save attempt of the reallocation loop succeeds. -/
theorem updateLoop_success (appts : List Appt) (id : Nat) (current : Appt)
    (u : ApptUpdate) (day : Int) (fuel : Nat)
    (hslot : ¬ slotTakenExcl appts id day ((countDayExcl appts day id : Int) + 1)) :
    updateLoop appts id current u day (fuel + 1)
      = .ok (applyBody current u (some (day, (countDayExcl appts day id : Int) + 1))
            (updPayStatus current u),
          appts.map (fun b =>
            if b.id = id then
              applyBody current u (some (day, (countDayExcl appts day id : Int) + 1))
                (updPayStatus current u)
            else b)) := by
  have hguard : ¬ slotTakenExcl appts id
      (applyBody current u (some (day, (countDayExcl appts day id : Int) + 1))
        (updPayStatus current u)).appointmentDay
      (applyBody current u (some (day, (countDayExcl appts day id : Int) + 1))
        (updPayStatus current u)).dailyToken := by
    rw [applyBody_day, applyBody_token]
    exact hslot
  simp only [updateLoop, saveUpdated, if_neg hguard]

/-- Any successful exit of the reallocation loop produced the updated document
    with token count-excluding-self + 1 and replaced it in the collection,
    with no other document holding its new (day, token) pair. -/
theorem updateLoop_ok (appts : List Appt) (id : Nat) (current : Appt)
    (u : ApptUpdate) (day : Int) (fuel : Nat) (a : Appt) (s : List Appt) :
    updateLoop appts id current u day fuel = .ok (a, s) →
    a = applyBody current u (some (day, (countDayExcl appts day id : Int) + 1))
        (updPayStatus current u) ∧
    s = appts.map (fun b => if b.id = id then a else b) ∧
    ¬ slotTakenExcl appts id a.appointmentDay a.dailyToken := by
  induction fuel with
  | zero => intro h; exact absurd h (by simp [updateLoop])
  | succ n ih =>
    intro h
    by_cases hguard : slotTakenExcl appts id
        (applyBody current u (some (day, (countDayExcl appts day id : Int) + 1))
          (updPayStatus current u)).appointmentDay
        (applyBody current u (some (day, (countDayExcl appts day id : Int) + 1))
          (updPayStatus current u)).dailyToken
    · simp only [updateLoop, saveUpdated, if_pos hguard] at h
      exact ih h
    · simp only [updateLoop, saveUpdated, if_neg hguard] at h
      simp only [Except.ok.injEq, Prod.mk.injEq] at h
      refine ⟨h.1.symm, by rw [← h.2, h.1], ?_⟩
      rw [h.1] at hguard
      exact hguard

/-- The reallocation loop never reports a slot conflict. -/
theorem updateLoop_ne_slotConflict (appts : List Appt) (id : Nat) (current : Appt)
    (u : ApptUpdate) (day : Int) :
    ∀ fuel, updateLoop appts id current u day fuel ≠ .error .slotConflict := by
  intro fuel
  induction fuel with
  | zero => simp [updateLoop]
  | succ n ih =>
    simp only [updateLoop]
    cases hsave : saveUpdated appts id (applyBody current u
        (some (day, (countDayExcl appts day id : Int) + 1)) (updPayStatus current u)) with
    | none => exact ih
    | some s => simp

/-- The write stage of the update never reports a slot conflict. -/
theorem updateWrite_ne_slotConflict (appts : List Appt) (id : Nat) (current : Appt)
    (u : ApptUpdate) :
    updateWrite appts id current u ≠ .error .slotConflict := by
  cases hdate : u.appointmentDate with
  | some newDate =>
    have heq : updateWrite appts id current u
        = updateLoop appts id current u (truncDay newDate) 3 := by
      unfold updateWrite; rw [hdate]
    rw [heq]
    exact updateLoop_ne_slotConflict appts id current u (truncDay newDate) 3
  | none =>
    have heq : updateWrite appts id current u
        = (match saveUpdated appts id (applyBody current u none (updPayStatus current u)) with
          | some s => Except.ok (applyBody current u none (updPayStatus current u), s)
          | none => Except.error ApptError.serverError) := by
      unfold updateWrite; rw [hdate]
    rw [heq]
    cases hsave : saveUpdated appts id (applyBody current u none (updPayStatus current u)) with
    | none => simp
    | some s => simp

/-- The effective update preserves every field except amount. -/
theorem effUpdate_fields (env : Env) (u : ApptUpdate) :
    (effUpdate env u).patient = u.patient ∧
    (effUpdate env u).doctor = u.doctor ∧
    (effUpdate env u).appointmentDate = u.appointmentDate ∧
    (effUpdate env u).appointmentTime = u.appointmentTime ∧
    (effUpdate env u).status = u.status ∧
    (effUpdate env u).discount = u.discount ∧
    (effUpdate env u).paymentOnline = u.paymentOnline ∧
    (effUpdate env u).paymentOffline = u.paymentOffline := by
  unfold effUpdate
  cases hu : u.doctor with
  | none => simp [hu]
  | some did =>
    cases hfd : env.doctors.find? (fun dr => dr.id == did) with
    | none => simp [hfd, hu]
    | some newDoc =>
      simp only [hfd]
      split <;> simp [hu]

/-- With the stored appointment found and valid patient and doctor
    references, PUT /api/appointments/:id reduces to the conflict check and
    write stage on the effective update body. -/
theorem updateAppointment_eq (env : Env) (appts : List Appt) (id : Nat)
    (u : ApptUpdate) (current : Appt)
    (hfind : appts.find? (fun a => a.id == id) = some current)
    (hpat : u.patient.any (fun p => !(env.patients.contains p)) = false)
    (hdoc : ∀ did ∈ u.doctor, (env.doctors.find? (fun dr => dr.id == did)).isSome) :
    updateAppointment env appts id u
      = updateAfterDoctor appts id current (effUpdate env u)
          (u.doctor.getD current.doctor) := by
  unfold updateAppointment
  rw [hfind]
  simp only [hpat, Bool.false_eq_true, if_false]
  cases hu : u.doctor with
  | none =>
    have heff : effUpdate env u = u := by unfold effUpdate; rw [hu]
    rw [heff]
    rfl
  | some did =>
    have hsome := hdoc did hu
    cases hfd : env.doctors.find? (fun dr => dr.id == did) with
    | none => rw [hfd] at hsome; simp at hsome
    | some newDoc =>
      simp only [hfd, Option.getD_some]

end Clinic

namespace Clinic

/-- With the date changing, the write stage is the reallocation loop with 3
    attempts on the truncated new day. -/
theorem updateWrite_date (appts : List Appt) (id : Nat) (current : Appt)
    (u : ApptUpdate) (newDate : Int) (hdate : u.appointmentDate = some newDate) :
    updateWrite appts id current u = updateLoop appts id current u (truncDay newDate) 3 := by
  unfold updateWrite
  rw [hdate]

/-- When doctor, date or time is part of the change set and the effective
    conflict query is empty, the update proceeds to the write stage. -/
theorem updateAfterDoctor_pass (appts : List Appt) (id : Nat) (current : Appt)
    (u : ApptUpdate) (effDoctor : Nat)
    (hpresent : u.appointmentDate ≠ none ∨ u.appointmentTime ≠ none ∨ u.doctor ≠ none)
    (hnc : ¬ apptConflictExcl appts id
      (if u.doctor ≠ none then effDoctor else current.doctor)
      (u.appointmentDate.getD current.appointmentDate)
      (u.appointmentTime.getD current.appointmentTime)) :
    updateAfterDoctor appts id current u effDoctor = updateWrite appts id current u := by
  simp only [updateAfterDoctor, if_pos hpresent, if_neg hnc]

/-- When doctor, date or time is part of the change set and the effective
    conflict query finds another appointment, the update is rejected. -/
theorem updateAfterDoctor_conflict (appts : List Appt) (id : Nat) (current : Appt)
    (u : ApptUpdate) (effDoctor : Nat)
    (hpresent : u.appointmentDate ≠ none ∨ u.appointmentTime ≠ none ∨ u.doctor ≠ none)
    (hc : apptConflictExcl appts id
      (if u.doctor ≠ none then effDoctor else current.doctor)
      (u.appointmentDate.getD current.appointmentDate)
      (u.appointmentTime.getD current.appointmentTime)) :
    updateAfterDoctor appts id current u effDoctor = .error .slotConflict := by
  simp only [updateAfterDoctor, if_pos hpresent, if_pos hc]

/-- When none of doctor, date, time is in the change set, no conflict check
    runs. -/
theorem updateAfterDoctor_nopresent (appts : List Appt) (id : Nat) (current : Appt)
    (u : ApptUpdate) (effDoctor : Nat)
    (hnp : ¬ (u.appointmentDate ≠ none ∨ u.appointmentTime ≠ none ∨ u.doctor ≠ none)) :
    updateAfterDoctor appts id current u effDoctor = updateWrite appts id current u := by
  simp only [updateAfterDoctor, if_neg hnp]

/-- The effective-doctor conditional collapses to the getD form. -/
theorem effDoctor_collapse (env : Env) (u : ApptUpdate) (current : Appt) :
    (if (effUpdate env u).doctor ≠ none then u.doctor.getD current.doctor
      else current.doctor) = u.doctor.getD current.doctor := by
  rw [(effUpdate_fields env u).2.1]
  cases u.doctor with
  | none => simp
  | some did => simp

/-- With valid references and no slot conflict, the creation rejected with the
    exhausted-retries error exactly when the freshly counted token is taken. -/
theorem createAppointment_conflict (env : Env) (appts : List Appt)
    (input : ApptInput) (newId : Nat)
    (hp : input.patient ∈ env.patients)
    (hd : (env.doctors.find? (fun dr => dr.id == input.doctor)) ≠ none)
    (hc : apptConflict appts input.doctor input.appointmentDate input.appointmentTime) :
    createAppointment env appts input newId = .error .slotConflict := by
  simp only [createAppointment, if_neg (not_not_intro hp), if_neg hd, if_pos hc]

end Clinic

namespace Clinic

/-! ## C2, C10, C5 -/

/-- C2: on creation, and on every update changing the date, the daily token is
    proposed as the count of existing appointments on the truncated day
    (excluding the updated appointment itself) plus one; when that (day,
    token) pair is free, the first save succeeds with exactly that token; when
    it is already taken, each of the 3 attempts recounts the unchanged
    collection and collides again, so the operation surfaces the token
    allocation failure. -/
theorem c2_token_allocation :
    (∀ env appts input newId,
      input.patient ∈ env.patients →
      (env.doctors.find? (fun dr => dr.id == input.doctor)) ≠ none →
      ¬ apptConflict appts input.doctor input.appointmentDate input.appointmentTime →
      ¬ idTaken appts newId →
      (¬ slotTaken appts (truncDay input.appointmentDate)
          ((countDay appts (truncDay input.appointmentDate) : Int) + 1) →
        createAppointment env appts input newId
          = .ok (mkNewAppt input newId (truncDay input.appointmentDate)
                ((countDay appts (truncDay input.appointmentDate) : Int) + 1),
              appts ++ [mkNewAppt input newId (truncDay input.appointmentDate)
                ((countDay appts (truncDay input.appointmentDate) : Int) + 1)])) ∧
      (slotTaken appts (truncDay input.appointmentDate)
          ((countDay appts (truncDay input.appointmentDate) : Int) + 1) →
        createAppointment env appts input newId = .error .tokenAllocationFailed)) ∧
    (∀ env appts id u current newDate,
      appts.find? (fun a => a.id == id) = some current →
      u.patient.any (fun p => !(env.patients.contains p)) = false →
      (∀ did ∈ u.doctor, (env.doctors.find? (fun dr => dr.id == did)).isSome) →
      u.appointmentDate = some newDate →
      ¬ apptConflictExcl appts id (u.doctor.getD current.doctor) newDate
        (u.appointmentTime.getD current.appointmentTime) →
      (¬ slotTakenExcl appts id (truncDay newDate)
          ((countDayExcl appts (truncDay newDate) id : Int) + 1) →
        ∃ a s, updateAppointment env appts id u = .ok (a, s) ∧
          a.dailyToken = (countDayExcl appts (truncDay newDate) id : Int) + 1 ∧
          a.appointmentDay = truncDay newDate) ∧
      (slotTakenExcl appts id (truncDay newDate)
          ((countDayExcl appts (truncDay newDate) id : Int) + 1) →
        updateAppointment env appts id u = .error .tokenAllocationFailed)) := by
  constructor
  · intro env appts input newId hp hd hc hid
    constructor
    · intro hfree
      rw [createAppointment_eq env appts input newId hp hd hc,
        createLoop_success appts input newId (truncDay input.appointmentDate) 2 hid hfree]
    · intro htaken
      rw [createAppointment_eq env appts input newId hp hd hc,
        createLoop_taken appts input newId (truncDay input.appointmentDate) htaken 3]
  · intro env appts id u current newDate hfind hpat hdoc hdate hnc
    have hfields := effUpdate_fields env u
    have heq := updateAppointment_eq env appts id u current hfind hpat hdoc
    have hdate' : (effUpdate env u).appointmentDate = some newDate := by
      rw [hfields.2.2.1, hdate]
    have hpresent' : (effUpdate env u).appointmentDate ≠ none ∨
        (effUpdate env u).appointmentTime ≠ none ∨ (effUpdate env u).doctor ≠ none := by
      rw [hdate']
      exact Or.inl (by simp)
    have hnc' : ¬ apptConflictExcl appts id
        (if (effUpdate env u).doctor ≠ none then u.doctor.getD current.doctor
          else current.doctor)
        ((effUpdate env u).appointmentDate.getD current.appointmentDate)
        ((effUpdate env u).appointmentTime.getD current.appointmentTime) := by
      rw [effDoctor_collapse env u current, hdate', hfields.2.2.2.1]
      simpa using hnc
    rw [heq, updateAfterDoctor_pass appts id current (effUpdate env u)
        (u.doctor.getD current.doctor) hpresent' hnc',
      updateWrite_date appts id current (effUpdate env u) newDate hdate']
    constructor
    · intro hfree
      rw [updateLoop_success appts id current (effUpdate env u) (truncDay newDate) 2 hfree]
      exact ⟨_, _, rfl, applyBody_token _ _ _ _ _, applyBody_day _ _ _ _ _⟩
    · intro htaken
      rw [updateLoop_taken appts id current (effUpdate env u) (truncDay newDate) htaken 3]

/-- C10: when the day's token set already contains count + 1 (as after
    administratively deleting an appointment whose token is not the day's
    maximum, leaving a gap below), every creation on that day proposes the
    same taken token on all 3 attempts, deterministically fails with the
    token-allocation error, writes nothing, and resubmitting any number of
    times cannot succeed while the store is unchanged. -/
theorem c10_gap_deadlock (env : Env) (appts : List Appt) (input : ApptInput)
    (newId : Nat)
    (hp : input.patient ∈ env.patients)
    (hd : (env.doctors.find? (fun dr => dr.id == input.doctor)) ≠ none)
    (hc : ¬ apptConflict appts input.doctor input.appointmentDate input.appointmentTime)
    (htaken : slotTaken appts (truncDay input.appointmentDate)
      ((countDay appts (truncDay input.appointmentDate) : Int) + 1))
    (hgap : ∃ g : Nat, 1 ≤ g ∧ g ≤ countDay appts (truncDay input.appointmentDate) ∧
      ¬ slotTaken appts (truncDay input.appointmentDate) (g : Int)) :
    createAppointment env appts input newId = .error .tokenAllocationFailed ∧
    stepAppt env appts (.create input newId) = appts ∧
    ∀ n, runAppts env appts (List.replicate n (.create input newId)) = appts := by
  have hfail : createAppointment env appts input newId = .error .tokenAllocationFailed := by
    rw [createAppointment_eq env appts input newId hp hd hc,
      createLoop_taken appts input newId (truncDay input.appointmentDate) htaken 3]
  have hstep : stepAppt env appts (.create input newId) = appts :=
    stepAppt_create_error env appts input newId _ hfail
  refine ⟨hfail, hstep, ?_⟩
  intro n
  induction n with
  | zero => rfl
  | succ k ih =>
    rw [List.replicate_succ]
    simp only [runAppts, List.foldl_cons, hstep]
    exact ih

/-- C5: creation, and every update whose change set touches doctor, date or
    time, is rejected with the slot-conflict error, writing nothing, exactly
    when another appointment holds the same effective doctor, exact date and
    time with status scheduled or confirmed. -/
theorem c5_slot_conflict :
    (∀ env appts input newId,
      input.patient ∈ env.patients →
      (env.doctors.find? (fun dr => dr.id == input.doctor)) ≠ none →
      ((createAppointment env appts input newId = .error .slotConflict)
        ↔ apptConflict appts input.doctor input.appointmentDate input.appointmentTime) ∧
      (createAppointment env appts input newId = .error .slotConflict →
        stepAppt env appts (.create input newId) = appts)) ∧
    (∀ env appts id u current,
      appts.find? (fun a => a.id == id) = some current →
      u.patient.any (fun p => !(env.patients.contains p)) = false →
      (∀ did ∈ u.doctor, (env.doctors.find? (fun dr => dr.id == did)).isSome) →
      (u.appointmentDate ≠ none ∨ u.appointmentTime ≠ none ∨ u.doctor ≠ none) →
      ((updateAppointment env appts id u = .error .slotConflict)
        ↔ apptConflictExcl appts id (u.doctor.getD current.doctor)
            (u.appointmentDate.getD current.appointmentDate)
            (u.appointmentTime.getD current.appointmentTime)) ∧
      (updateAppointment env appts id u = .error .slotConflict →
        stepAppt env appts (.update id u) = appts)) := by
  constructor
  · intro env appts input newId hp hd
    constructor
    · constructor
      · intro herr
        by_contra hnc
        rw [createAppointment_eq env appts input newId hp hd hnc] at herr
        cases hloop : createLoop appts input newId (truncDay input.appointmentDate) 3 with
        | none => rw [hloop] at herr; simp at herr
        | some pr =>
          obtain ⟨a, s⟩ := pr
          rw [hloop] at herr
          simp at herr
      · intro hc
        exact createAppointment_conflict env appts input newId hp hd hc
    · intro herr
      exact stepAppt_create_error env appts input newId _ herr
  · intro env appts id u current hfind hpat hdoc hpresent
    have hfields := effUpdate_fields env u
    have heq := updateAppointment_eq env appts id u current hfind hpat hdoc
    have hpresent' : (effUpdate env u).appointmentDate ≠ none ∨
        (effUpdate env u).appointmentTime ≠ none ∨ (effUpdate env u).doctor ≠ none := by
      rw [hfields.2.2.1, hfields.2.2.2.1, hfields.2.1]
      exact hpresent
    constructor
    · constructor
      · intro herr
        by_contra hnc
        have hnc' : ¬ apptConflictExcl appts id
            (if (effUpdate env u).doctor ≠ none then u.doctor.getD current.doctor
              else current.doctor)
            ((effUpdate env u).appointmentDate.getD current.appointmentDate)
            ((effUpdate env u).appointmentTime.getD current.appointmentTime) := by
          rw [effDoctor_collapse env u current, hfields.2.2.1, hfields.2.2.2.1]
          exact hnc
        rw [heq, updateAfterDoctor_pass appts id current (effUpdate env u)
          (u.doctor.getD current.doctor) hpresent' hnc'] at herr
        exact updateWrite_ne_slotConflict appts id current (effUpdate env u) herr
      · intro hc
        have hc' : apptConflictExcl appts id
            (if (effUpdate env u).doctor ≠ none then u.doctor.getD current.doctor
              else current.doctor)
            ((effUpdate env u).appointmentDate.getD current.appointmentDate)
            ((effUpdate env u).appointmentTime.getD current.appointmentTime) := by
          rw [effDoctor_collapse env u current, hfields.2.2.1, hfields.2.2.2.1]
          exact hc
        rw [heq]
        exact updateAfterDoctor_conflict appts id current (effUpdate env u)
          (u.doctor.getD current.doctor) hpresent' hc'
    · intro herr
      exact stepAppt_update_error env appts id u _ herr

end Clinic

namespace Clinic

/-- A one-patient, one-doctor referential environment. -/
def envW : Env := { patients := [1], doctors := [{ id := 2 }] }

/-- A stored appointment: doctor 2, instant 100 (day 0), 10:00, token 1. -/
def a1W : Appt :=
  { id := 10, patient := 1, doctor := 2, appointmentDate := 100
    appointmentDay := 0, appointmentTime := "10:00", dailyToken := 1
    status := .scheduled, amount := none, discount := 0
    paymentOnline := 0, paymentOffline := 0, paymentStatus := .pending }

/-- A stored appointment on the same day with token 3 (token 2 is a gap). -/
def a3W : Appt :=
  { id := 11, patient := 1, doctor := 2, appointmentDate := 300
    appointmentDay := 0, appointmentTime := "12:00", dailyToken := 3
    status := .scheduled, amount := none, discount := 0
    paymentOnline := 0, paymentOffline := 0, paymentStatus := .pending }

/-- A creation request: doctor 2, instant 100 (day 0), 10:00. -/
def inputW : ApptInput :=
  { patient := 1, doctor := 2, appointmentDate := 100, appointmentTime := "10:00" }

/-- A creation request on the same day at a free time. -/
def inputW2 : ApptInput :=
  { patient := 1, doctor := 2, appointmentDate := 200, appointmentTime := "11:00" }

/-- Witness for c2_token_allocation at concrete inputs: a creation into the
    empty store gets token 1, and a date-changing update onto an empty new day
    gets token 1 on that day. -/
theorem c2_token_allocation_witness :
    createAppointment envW [] inputW 10
        = .ok (mkNewAppt inputW 10 (truncDay inputW.appointmentDate)
            ((countDay [] (truncDay inputW.appointmentDate) : Int) + 1),
          [mkNewAppt inputW 10 (truncDay inputW.appointmentDate)
            ((countDay [] (truncDay inputW.appointmentDate) : Int) + 1)]) ∧
    (updateAppointment envW [a1W] 10 { appointmentDate := some 86400005 }).toOption.map
        (fun r => (r.1.dailyToken, r.1.appointmentDay)) = some (1, 86400000) := by
  constructor
  · exact (c2_token_allocation.1 envW [] inputW 10 (by decide) (by decide)
      (by decide) (by decide)).1 (by decide)
  · obtain ⟨a, s, heq2, htok, hday⟩ :=
      (c2_token_allocation.2 envW [a1W] 10 { appointmentDate := some 86400005 } a1W
        86400005 rfl rfl (by simp) rfl (by decide)).1 (by decide)
    rw [heq2]
    show some (a.dailyToken, a.appointmentDay) = some (1, 86400000)
    rw [htok, hday]
    decide

/-- Witness for c10_gap_deadlock: day 0 holds tokens 1 and 3 (token 2 was
    deleted), so count 2 proposes the taken token 3 and creation always fails. -/
theorem c10_gap_deadlock_witness :
    createAppointment envW [a1W, a3W] inputW2 12 = .error .tokenAllocationFailed ∧
    runAppts envW [a1W, a3W] (List.replicate 2 (.create inputW2 12)) = [a1W, a3W] := by
  have h := c10_gap_deadlock envW [a1W, a3W] inputW2 12 (by decide) (by decide)
    (by decide) (by decide) ⟨2, by decide, by decide, by decide⟩
  exact ⟨h.1, h.2.2 2⟩

/-- Witness for c5_slot_conflict: booking doctor 2 at the already-booked
    slot (instant 100, 10:00) is rejected with the slot conflict and writes
    nothing. -/
theorem c5_slot_conflict_witness :
    createAppointment envW [a1W] inputW 11 = .error .slotConflict ∧
    stepAppt envW [a1W] (.create inputW 11) = [a1W] := by
  have hiff := c5_slot_conflict.1 envW [a1W] inputW 11 (by decide) (by decide)
  have herr : createAppointment envW [a1W] inputW 11 = .error .slotConflict :=
    hiff.1.mpr (by decide)
  exact ⟨herr, hiff.2 herr⟩

end Clinic

namespace Clinic

/-! ## C3: per-day token uniqueness invariant -/

/-- Two appointment documents compatible with both unique indexes: distinct
    ids and distinct (appointmentDay, dailyToken) pairs. -/
def TokenRel (a b : Appt) : Prop :=
  a.id ≠ b.id ∧ ¬ (a.appointmentDay = b.appointmentDay ∧ a.dailyToken = b.dailyToken)

/-- The store invariant guarded by the unique indexes of Appointment. -/
abbrev TokenInv (appts : List Appt) : Prop := appts.Pairwise TokenRel

theorem tokenRel_symm {a b : Appt} (h : TokenRel a b) : TokenRel b a := by
  refine ⟨h.1.symm, fun hc => h.2 ⟨hc.1.symm, hc.2.symm⟩⟩

theorem map_id_of {α : Type} (l : List α) (f : α → α) (h : ∀ y ∈ l, f y = y) :
    l.map f = l := by
  induction l with
  | nil => rfl
  | cons x xs ih =>
    rw [List.map_cons, h x (by simp), ih (fun y hy => h y (by simp [hy]))]

/-- Appending a document whose id and (day, token) pass the unique indexes
    preserves the invariant. -/
theorem tokenInv_insert (appts : List Appt) (a : Appt) (hinv : TokenInv appts)
    (hid : ¬ idTaken appts a.id)
    (hslot : ¬ slotTaken appts a.appointmentDay a.dailyToken) :
    TokenInv (appts ++ [a]) := by
  show (appts ++ [a]).Pairwise TokenRel
  rw [List.pairwise_append]
  refine ⟨hinv, List.pairwise_singleton _ _, ?_⟩
  intro x hx y hy
  simp only [List.mem_singleton] at hy
  subst hy
  constructor
  · intro heq
    exact hid ⟨x, hx, heq⟩
  · intro hc
    exact hslot ⟨x, hx, hc.1, hc.2⟩

/-- Replacing the document with the given id by one that keeps that id and
    passes the (day, token) unique index against all other documents
    preserves the invariant. -/
theorem tokenInv_replace (appts : List Appt) (id : Nat) (newA : Appt)
    (hinv : TokenInv appts) (hid : newA.id = id)
    (hslot : ¬ slotTakenExcl appts id newA.appointmentDay newA.dailyToken) :
    TokenInv (appts.map (fun b => if b.id = id then newA else b)) := by
  induction appts with
  | nil => exact List.Pairwise.nil
  | cons x xs ih =>
    have hinv' : (x :: xs).Pairwise TokenRel := hinv
    rw [List.pairwise_cons] at hinv'
    obtain ⟨hx, hxs⟩ := hinv'
    show ((x :: xs).map (fun b => if b.id = id then newA else b)).Pairwise TokenRel
    have hslot' : ¬ slotTakenExcl xs id newA.appointmentDay newA.dailyToken := by
      intro ⟨b, hb, hbne, hbday, hbtok⟩
      exact hslot ⟨b, by simp [hb], hbne, hbday, hbtok⟩
    rw [List.map_cons]
    by_cases hxid : x.id = id
    · rw [if_pos hxid]
      have hmap : xs.map (fun b => if b.id = id then newA else b) = xs := by
        refine map_id_of xs _ (fun y hy => ?_)
        have : x.id ≠ y.id := (hx y hy).1
        rw [if_neg (by rw [← hxid]; exact fun hc => this hc.symm)]
      rw [hmap, List.pairwise_cons]
      refine ⟨fun y hy => ?_, hxs⟩
      have hyid : y.id ≠ id := by
        have : x.id ≠ y.id := (hx y hy).1
        rw [← hxid]; exact fun hc => this hc.symm
      refine ⟨by rw [hid]; exact fun hc => hyid hc.symm, fun hc => ?_⟩
      exact hslot' ⟨y, hy, hyid, hc.1.symm, hc.2.symm⟩
    · rw [if_neg hxid, List.pairwise_cons]
      refine ⟨?_, ih hxs hslot'⟩
      intro y' hy'
      rw [List.mem_map] at hy'
      obtain ⟨y, hy, hfy⟩ := hy'
      by_cases hyid : y.id = id
      · rw [if_pos hyid] at hfy
        subst hfy
        refine ⟨by rw [hid]; exact hxid, fun hc => ?_⟩
        exact hslot ⟨x, by simp, hxid, hc.1, hc.2⟩
      · rw [if_neg hyid] at hfy
        subst hfy
        exact hx y hy

end Clinic

namespace Clinic

/-- Any successful creation appended a document that passed both unique
    indexes against the prior store. -/
theorem createAppointment_ok (env : Env) (appts : List Appt) (input : ApptInput)
    (newId : Nat) (a : Appt) (s : List Appt)
    (h : createAppointment env appts input newId = .ok (a, s)) :
    s = appts ++ [a] ∧ ¬ idTaken appts a.id ∧
    ¬ slotTaken appts a.appointmentDay a.dailyToken := by
  by_cases hp : input.patient ∈ env.patients
  · by_cases hd : (env.doctors.find? (fun dr => dr.id == input.doctor)) = none
    · simp [createAppointment, hp, hd] at h
    · by_cases hc : apptConflict appts input.doctor input.appointmentDate
          input.appointmentTime
      · rw [createAppointment_conflict env appts input newId hp hd hc] at h
        simp at h
      · rw [createAppointment_eq env appts input newId hp hd hc] at h
        cases hloop : createLoop appts input newId (truncDay input.appointmentDate) 3 with
        | none => rw [hloop] at h; simp at h
        | some pr =>
          obtain ⟨a0, s0⟩ := pr
          rw [hloop] at h
          simp only [Except.ok.injEq, Prod.mk.injEq] at h
          obtain ⟨ha0, hs0⟩ := h
          obtain ⟨hmk, hs, hid, hslot⟩ :=
            createLoop_ok appts input newId (truncDay input.appointmentDate) 3 a0 s0 hloop
          subst ha0 hs0
          refine ⟨hs, ?_, ?_⟩
          · rw [hmk, mkNewAppt_id]
            exact hid
          · rw [hmk, mkNewAppt_day, mkNewAppt_token]
            exact hslot
  · simp [createAppointment, hp] at h

/-- Any successful write stage replaced the stored document by one keeping its
    id that passed the (day, token) unique index against all others. -/
theorem updateWrite_ok (appts : List Appt) (id : Nat) (current : Appt)
    (u : ApptUpdate) (a : Appt) (s : List Appt)
    (h : updateWrite appts id current u = .ok (a, s)) :
    a.id = current.id ∧ s = appts.map (fun b => if b.id = id then a else b) ∧
    ¬ slotTakenExcl appts id a.appointmentDay a.dailyToken := by
  cases hdate : u.appointmentDate with
  | some newDate =>
    rw [updateWrite_date appts id current u newDate hdate] at h
    obtain ⟨ha, hs, hslot⟩ :=
      updateLoop_ok appts id current u (truncDay newDate) 3 a s h
    exact ⟨by rw [ha, applyBody_id], hs, hslot⟩
  | none =>
    have heq : updateWrite appts id current u
        = (match saveUpdated appts id (applyBody current u none (updPayStatus current u)) with
          | some s => Except.ok (applyBody current u none (updPayStatus current u), s)
          | none => Except.error ApptError.serverError) := by
      unfold updateWrite; rw [hdate]
    rw [heq] at h
    by_cases hslot : slotTakenExcl appts id
        (applyBody current u none (updPayStatus current u)).appointmentDay
        (applyBody current u none (updPayStatus current u)).dailyToken
    · rw [saveUpdated, if_pos hslot] at h
      simp at h
    · rw [saveUpdated, if_neg hslot] at h
      simp only [Except.ok.injEq, Prod.mk.injEq] at h
      obtain ⟨ha, hs⟩ := h
      subst ha
      exact ⟨applyBody_id _ _ _ _, hs.symm, hslot⟩

/-- Any successful pass through the conflict stage is a successful write. -/
theorem updateAfterDoctor_ok (appts : List Appt) (id : Nat) (current : Appt)
    (u : ApptUpdate) (effDoctor : Nat) (a : Appt) (s : List Appt)
    (h : updateAfterDoctor appts id current u effDoctor = .ok (a, s)) :
    a.id = current.id ∧ s = appts.map (fun b => if b.id = id then a else b) ∧
    ¬ slotTakenExcl appts id a.appointmentDay a.dailyToken := by
  by_cases hpres : u.appointmentDate ≠ none ∨ u.appointmentTime ≠ none ∨ u.doctor ≠ none
  · by_cases hconf : apptConflictExcl appts id
        (if u.doctor ≠ none then effDoctor else current.doctor)
        (u.appointmentDate.getD current.appointmentDate)
        (u.appointmentTime.getD current.appointmentTime)
    · rw [updateAfterDoctor_conflict appts id current u effDoctor hpres hconf] at h
      simp at h
    · rw [updateAfterDoctor_pass appts id current u effDoctor hpres hconf] at h
      exact updateWrite_ok appts id current u a s h
  · rw [updateAfterDoctor_nopresent appts id current u effDoctor hpres] at h
    exact updateWrite_ok appts id current u a s h

/-- Any successful update replaced the document with the requested id by one
    keeping that id that passed the (day, token) unique index. -/
theorem updateAppointment_ok (env : Env) (appts : List Appt) (id : Nat)
    (u : ApptUpdate) (a : Appt) (s : List Appt)
    (h : updateAppointment env appts id u = .ok (a, s)) :
    a.id = id ∧ s = appts.map (fun b => if b.id = id then a else b) ∧
    ¬ slotTakenExcl appts id a.appointmentDay a.dailyToken := by
  unfold updateAppointment at h
  cases hfind : appts.find? (fun x => x.id == id) with
  | none => rw [hfind] at h; simp at h
  | some current =>
    rw [hfind] at h
    have hcur : current.id = id := by
      have := List.find?_some hfind
      simpa using this
    by_cases hpat : (u.patient.any (fun p => !(env.patients.contains p))) = true
    · simp only [hpat, if_true] at h
      simp at h
    · simp only [hpat, Bool.false_eq_true, if_false] at h
      cases hud : u.doctor with
      | none =>
        rw [hud] at h
        obtain ⟨h1, h2, h3⟩ := updateAfterDoctor_ok appts id current u current.doctor a s h
        exact ⟨by rw [h1, hcur], h2, h3⟩
      | some did =>
        rw [hud] at h
        cases hfd : env.doctors.find? (fun dr => dr.id == did) with
        | none => simp only [hfd] at h; simp at h
        | some newDoc =>
          simp only [hfd] at h
          obtain ⟨h1, h2, h3⟩ :=
            updateAfterDoctor_ok appts id current (effUpdate env u) did a s h
          exact ⟨by rw [h1, hcur], h2, h3⟩

/-- Every appointment operation preserves the uniqueness invariant. -/
theorem tokenInv_step (env : Env) (appts : List Appt) (op : ApptOp)
    (hinv : TokenInv appts) : TokenInv (stepAppt env appts op) := by
  cases op with
  | create input newId =>
    cases hres : createAppointment env appts input newId with
    | error e =>
      rw [stepAppt_create_error env appts input newId e hres]
      exact hinv
    | ok pr =>
      obtain ⟨a, s⟩ := pr
      obtain ⟨hs, hid, hslot⟩ := createAppointment_ok env appts input newId a s hres
      have hstep : stepAppt env appts (.create input newId) = s := by
        simp [stepAppt, hres]
      rw [hstep, hs]
      exact tokenInv_insert appts a hinv hid hslot
  | update id u =>
    cases hres : updateAppointment env appts id u with
    | error e =>
      rw [stepAppt_update_error env appts id u e hres]
      exact hinv
    | ok pr =>
      obtain ⟨a, s⟩ := pr
      obtain ⟨hid, hs, hslot⟩ := updateAppointment_ok env appts id u a s hres
      have hstep : stepAppt env appts (.update id u) = s := by
        simp [stepAppt, hres]
      rw [hstep, hs]
      exact tokenInv_replace appts id a hinv hid hslot
  | delete id =>
    by_cases hid : idTaken appts id
    · have hstep : stepAppt env appts (.delete id) = appts.filter (fun a => a.id ≠ id) := by
        simp [stepAppt, deleteAppointment, hid]
      rw [hstep]
      exact List.Pairwise.sublist (List.filter_sublist appts) hinv
    · have hstep : stepAppt env appts (.delete id) = appts := by
        simp [stepAppt, deleteAppointment, hid]
      rw [hstep]
      exact hinv

/-- C3: from any store satisfying the per-day token uniqueness invariant,
    every sequence of create, update and delete operations preserves it; in
    particular any two distinct appointments of the resulting store sharing an
    appointmentDay carry distinct dailyToken values. -/
theorem c3_token_uniqueness (env : Env) (appts : List Appt) (ops : List ApptOp)
    (hinv : TokenInv appts) :
    TokenInv (runAppts env appts ops) ∧
    ∀ a ∈ runAppts env appts ops, ∀ b ∈ runAppts env appts ops, a ≠ b →
      a.appointmentDay = b.appointmentDay → a.dailyToken ≠ b.dailyToken := by
  have hrun : TokenInv (runAppts env appts ops) := by
    induction ops generalizing appts with
    | nil => exact hinv
    | cons op rest ih =>
      simp only [runAppts, List.foldl_cons]
      exact ih (stepAppt env appts op) (tokenInv_step env appts op hinv)
  refine ⟨hrun, ?_⟩
  intro a ha b hb hne hday htok
  have hsym : Symmetric TokenRel := fun x y hxy => tokenRel_symm hxy
  have := List.Pairwise.forall hsym hrun ha hb hne
  exact this.2 ⟨hday, htok⟩

/-- Operation sequence for the concrete invariant run: two creations on the
    same day, a deletion, and a resubmission that hits the token gap. -/
def opsW : List ApptOp :=
  [.create inputW 10, .create inputW2 11, .delete 10, .create inputW 12]

/-- Witness for c3_token_uniqueness: running a concrete operation sequence
    from the empty store keeps the invariant. -/
theorem c3_token_uniqueness_witness :
    TokenInv (runAppts envW [] opsW) := by
  exact (c3_token_uniqueness envW [] opsW List.Pairwise.nil).1

end Clinic

namespace Clinic

/-! ## Stock ledger lemmas -/

theorem findIdxP_lt_length (p : Medicine → Bool) (l : List Medicine) (i : Nat) :
    findIdxP p l = some i → i < l.length := by
  induction l generalizing i with
  | nil => intro h; simp [findIdxP] at h
  | cons m ms ih =>
    intro h
    unfold findIdxP at h
    split at h
    · simp only [Option.some.injEq] at h
      subst h
      simp
    · cases hf : findIdxP p ms with
      | none => rw [hf] at h; simp at h
      | some j =>
        rw [hf] at h
        simp at h
        subst h
        have := ih j hf
        simp only [List.length_cons]
        omega

theorem resolveUpd_lt_length (meds : List Medicine) (it : DispenseItem) (i : Nat)
    (h : resolveUpd meds it = some i) : i < meds.length := by
  unfold resolveUpd at h
  cases he : exactIdx meds it with
  | some j =>
    rw [he] at h
    simp only [Option.some.injEq] at h
    subst h
    exact findIdxP_lt_length _ _ _ he
  | none =>
    rw [he] at h
    exact findIdxP_lt_length _ _ _ h

theorem stockAt_updateStockAt (meds : List Medicine) (i : Nat) (f : Int → Int)
    (h : i < meds.length) :
    stockAt (updateStockAt meds i f) i = f (stockAt meds i) := by
  induction meds generalizing i with
  | nil => simp at h
  | cons m ms ih =>
    cases i with
    | zero => rfl
    | succ n =>
      have hn : n < ms.length := by simpa using h
      simpa [stockAt, updateStockAt] using ih n hn

/-! ## C6: revert-then-reapply stock reconciliation on update -/

/-- Medicines of the worked example, both with stock 10. -/
def c6Meds : List Medicine := [⟨"A", "", "", 10⟩, ⟨"B", "", "", 10⟩]

/-- The dispense of the worked example, holding item A with quantity 3. -/
def c6Dispense : Dispense :=
  { items := [{ name := "A", quantity := 3, unitPrice := 1 }]
    subtotal := 3, tax := 0, discount := 0, total := 3
    paymentStatus := .pending, paidAmount := 0, billNumber := some "B" }

/-- The new item list of the worked example: A quantity 1 and B quantity 2. -/
def c6NewItems : List DispenseItem :=
  [{ name := "A", quantity := 1, unitPrice := 1 },
   { name := "B", quantity := 2, unitPrice := 1 }]

/-- C6: a dispense update reconciles stock by restoring the complete old item
    list (adding each resolved item's quantity, skipping unresolved items) and
    only afterwards consuming the complete new item list (subtracting clamped
    at zero, skipping unresolved items), resolving medicines exactly first and
    by name as a fallback; on the worked example, changing A(3) to A(1), B(2)
    against stocks 10 and 10 yields 12 and 8. -/
theorem c6_update_stock_reconciliation :
    (∀ d u meds, d.paymentStatus ≠ .cancelled →
      ∃ d', updateDispense d u meds
        = .ok (d', consumePass (restorePass meds d.items) (u.items.getD d.items))) ∧
    (∀ meds it i, resolveUpd meds it = some i →
      stockAt (restoreStep meds it) i = stockAt meds i + it.quantity) ∧
    (∀ meds it i, resolveUpd meds it = some i →
      stockAt (consumeStep resolveUpd meds it) i = max 0 (stockAt meds i - it.quantity)) ∧
    (∀ meds it, resolveUpd meds it = none →
      restoreStep meds it = meds ∧ consumeStep resolveUpd meds it = meds) ∧
    (∀ meds it i, exactIdx meds it = some i → resolveUpd meds it = some i) ∧
    (∀ meds it, exactIdx meds it = none → resolveUpd meds it = nameIdx meds it) ∧
    ((updateDispense c6Dispense { items := some c6NewItems } c6Meds).toOption.map
        (fun r => r.2.map Medicine.stock)) = some [12, 8] := by
  refine ⟨?_, ?_, ?_, ?_, ?_, ?_, by decide⟩
  · intro d u meds hc
    exact ⟨_, updateDispense_eq d u meds hc⟩
  · intro meds it i h
    unfold restoreStep
    rw [h]
    exact stockAt_updateStockAt meds i _ (resolveUpd_lt_length meds it i h)
  · intro meds it i h
    unfold consumeStep
    rw [h]
    exact stockAt_updateStockAt meds i _ (resolveUpd_lt_length meds it i h)
  · intro meds it h
    constructor
    · unfold restoreStep; rw [h]
    · unfold consumeStep; rw [h]
  · intro meds it i h
    unfold resolveUpd
    rw [h]
  · intro meds it h
    unfold resolveUpd
    rw [h]

/-- Witness for c6_update_stock_reconciliation: the restore characterization
    at a concrete resolved item. -/
theorem c6_update_stock_reconciliation_witness :
    stockAt (restoreStep c6Meds { name := "A", quantity := 3, unitPrice := 1 }) 0
      = stockAt c6Meds 0 + 3 := by
  exact c6_update_stock_reconciliation.2.1 c6Meds
    { name := "A", quantity := 3, unitPrice := 1 } 0 (by decide)

end Clinic

namespace Clinic

/-! ## C7: create / cancel stock round trip -/

/-- Two catalog entries sharing the name Amox: a specific strength entry
    first, a blank-strength entry second (the unique index on (name,
    strength, form) admits both). -/
def c7DupMeds : List Medicine :=
  [⟨"Amox", "500", "tab", 10⟩, ⟨"Amox", "", "", 10⟩]

/-- A dispensed line item carrying no strength and no form. -/
def c7Item : DispenseItem := { name := "Amox", quantity := 5, unitPrice := 1 }

/-- C7 counterexample: with both stocks 10 and quantity 5, creation resolves
    the item name-only (no strength or form on the item) and decrements the
    first entry to 5; cancel resolves exact-first, matches the blank-strength
    second entry and raises it to 15, so the affected medicine ends at 5, not
    its pre-creation value 10. -/
theorem c7_counterexample :
    c7DupMeds.map Medicine.stock = [10, 10] ∧
    (createDispense [c7Item] 0 0 clockW c7DupMeds).2.map Medicine.stock = [5, 10] ∧
    ((cancelDispense (createDispense [c7Item] 0 0 clockW c7DupMeds).1
        (createDispense [c7Item] 0 0 clockW c7DupMeds).2).toOption.map
      (fun r => r.2.map Medicine.stock)) = some [5, 15] := by
  decide

/-- Pairwise-distinct medicine names (boolean form of the natural key being
    determined by the name alone). -/
def namesDistinct : List Medicine → Bool
  | [] => true
  | m :: ms => ms.all (fun m2 => m2.name ≠ m.name) && namesDistinct ms

/-- The cumulative stock-sufficiency of a dispensed item list against a
    catalog: every resolved item finds at least its quantity in stock at the
    moment it is consumed. -/
def suffStock : List Medicine → List DispenseItem → Bool
  | _, [] => true
  | meds, it :: rest =>
    match resolveUpd meds it with
    | some i => (it.quantity ≤ stockAt meds i) && suffStock (consumeStep resolveUpd meds it) rest
    | none => suffStock meds rest

theorem findIdxP_some_mem (p : Medicine → Bool) (l : List Medicine) (i : Nat)
    (h : findIdxP p l = some i) : ∃ y ∈ l, p y = true := by
  induction l generalizing i with
  | nil => simp [findIdxP] at h
  | cons m ms ih =>
    unfold findIdxP at h
    split at h
    · exact ⟨m, by simp, by assumption⟩
    · cases hf : findIdxP p ms with
      | none => rw [hf] at h; simp at h
      | some j =>
        obtain ⟨y, hy, hpy⟩ := ih j hf
        exact ⟨y, by simp [hy], hpy⟩

/-- Under distinct names, an exact hit is also the name-only hit. -/
theorem exactIdx_some_nameIdx (meds : List Medicine) (it : DispenseItem) (i : Nat)
    (hnames : namesDistinct meds = true)
    (h : exactIdx meds it = some i) : nameIdx meds it = some i := by
  induction meds generalizing i with
  | nil => simp [exactIdx, findIdxP] at h
  | cons m ms ih =>
    unfold namesDistinct at hnames
    rw [Bool.and_eq_true] at hnames
    unfold exactIdx findIdxP at h
    unfold nameIdx findIdxP
    split at h
    · rename_i hpm
      rw [Bool.and_eq_true, Bool.and_eq_true] at hpm
      rw [if_pos hpm.1.1]
      simpa using h
    · rename_i hpm
      cases hf : findIdxP (fun m2 =>
          m2.name == it.name && m2.strength == orEmpty it.strength &&
            m2.form == orEmpty it.form) ms with
      | none => rw [hf] at h; simp at h
      | some j =>
        rw [hf] at h
        simp only [Option.map] at h
        have hrec : nameIdx ms it = some j := ih j hnames.2 hf
        have hmname : (m.name == it.name) = false := by
          by_contra hcon
          rw [Bool.not_eq_false, beq_iff_eq] at hcon
          obtain ⟨y, hy, hpy⟩ := findIdxP_some_mem _ ms j hf
          rw [Bool.and_eq_true, Bool.and_eq_true, beq_iff_eq] at hpy
          have hall := List.all_eq_true.mp hnames.1 y hy
          simp only [decide_eq_true_eq] at hall
          exact hall (by rw [hpy.1.1, hcon])
        rw [if_neg (by simp [hmname])]
        unfold nameIdx at hrec
        rw [hrec]
        simpa using h

/-- Under distinct names, the creation-time resolution agrees with the
    update/cancel-time resolution. -/
theorem resolveCreate_eq_resolveUpd (meds : List Medicine) (it : DispenseItem)
    (hnames : namesDistinct meds = true) :
    resolveCreate meds it = resolveUpd meds it := by
  unfold resolveCreate
  split
  · rfl
  · unfold resolveUpd
    cases he : exactIdx meds it with
    | none => rfl
    | some i =>
      show nameIdx meds it = some i
      exact exactIdx_some_nameIdx meds it i hnames he

end Clinic

namespace Clinic

theorem updateStockAt_ext (meds : List Medicine) (i : Nat) (f g : Int → Int)
    (h : ∀ s, f s = g s) : updateStockAt meds i f = updateStockAt meds i g := by
  induction meds generalizing i with
  | nil => rfl
  | cons m ms ih =>
    cases i with
    | zero => simp [updateStockAt, h m.stock]
    | succ n => simp [updateStockAt, ih n]

theorem updateStockAt_id (meds : List Medicine) (i : Nat) :
    updateStockAt meds i (fun s => s) = meds := by
  induction meds generalizing i with
  | nil => rfl
  | cons m ms ih =>
    cases i with
    | zero => rfl
    | succ n => simp [updateStockAt, ih n]

theorem updateStockAt_comp (meds : List Medicine) (i : Nat) (f g : Int → Int) :
    updateStockAt (updateStockAt meds i f) i g
      = updateStockAt meds i (fun s => g (f s)) := by
  induction meds generalizing i with
  | nil => rfl
  | cons m ms ih =>
    cases i with
    | zero => rfl
    | succ n => simp [updateStockAt, ih n]

theorem updateStockAt_comm_ne (meds : List Medicine) (i j : Nat) (f g : Int → Int)
    (hne : i ≠ j) :
    updateStockAt (updateStockAt meds i f) j g
      = updateStockAt (updateStockAt meds j g) i f := by
  induction meds generalizing i j with
  | nil => rfl
  | cons m ms ih =>
    cases i with
    | zero =>
      cases j with
      | zero => exact absurd rfl hne
      | succ b => rfl
    | succ a =>
      cases j with
      | zero => rfl
      | succ b => simp [updateStockAt, ih a b (by omega)]

/-- The resolution queries read only the static fields, so a stock update
    leaves them unchanged. -/
theorem findIdxP_updateStockAt (p : Medicine → Bool)
    (hp : ∀ m c, p { m with stock := c } = p m)
    (meds : List Medicine) (i : Nat) (f : Int → Int) :
    findIdxP p (updateStockAt meds i f) = findIdxP p meds := by
  induction meds generalizing i with
  | nil => rfl
  | cons m ms ih =>
    cases i with
    | zero =>
      show findIdxP p ({ m with stock := f m.stock } :: ms) = _
      unfold findIdxP
      rw [hp m (f m.stock)]
    | succ n =>
      show findIdxP p (m :: updateStockAt ms n f) = _
      unfold findIdxP
      rw [ih n]

theorem resolveUpd_updateStockAt (meds : List Medicine) (it : DispenseItem)
    (i : Nat) (f : Int → Int) :
    resolveUpd (updateStockAt meds i f) it = resolveUpd meds it := by
  unfold resolveUpd exactIdx nameIdx
  rw [findIdxP_updateStockAt
      (fun m => m.name == it.name && m.strength == orEmpty it.strength &&
        m.form == orEmpty it.form) (fun m c => rfl) meds i f,
    findIdxP_updateStockAt (fun m => m.name == it.name) (fun m c => rfl) meds i f]

/-! ### Exact (clamp-free) consumption, used to invert the passes -/

/-- Proof-side variant of the consume step with plain subtraction; it agrees
    with the code's clamped step whenever stock suffices. -/
def consumeExactStep (meds : List Medicine) (it : DispenseItem) : List Medicine :=
  match resolveUpd meds it with
  | some i => updateStockAt meds i (fun s => s - it.quantity)
  | none => meds

/-- Proof-side variant of the consume pass with plain subtraction. -/
def consumeExactPass (meds : List Medicine) : List DispenseItem → List Medicine
  | [] => meds
  | it :: rest => consumeExactPass (consumeExactStep meds it) rest

theorem restoreStep_eq_some (meds : List Medicine) (it : DispenseItem) (i : Nat)
    (h : resolveUpd meds it = some i) :
    restoreStep meds it = updateStockAt meds i (fun s => s + it.quantity) := by
  unfold restoreStep; rw [h]

theorem restoreStep_eq_none (meds : List Medicine) (it : DispenseItem)
    (h : resolveUpd meds it = none) : restoreStep meds it = meds := by
  unfold restoreStep; rw [h]

theorem consumeExactStep_eq_some (meds : List Medicine) (it : DispenseItem) (i : Nat)
    (h : resolveUpd meds it = some i) :
    consumeExactStep meds it = updateStockAt meds i (fun s => s - it.quantity) := by
  unfold consumeExactStep; rw [h]

theorem consumeExactStep_eq_none (meds : List Medicine) (it : DispenseItem)
    (h : resolveUpd meds it = none) : consumeExactStep meds it = meds := by
  unfold consumeExactStep; rw [h]

theorem consumeStep_eq_some (meds : List Medicine) (it : DispenseItem) (i : Nat)
    (h : resolveUpd meds it = some i) :
    consumeStep resolveUpd meds it
      = updateStockAt meds i (fun s => max 0 (s - it.quantity)) := by
  unfold consumeStep; rw [h]

theorem consumeStep_eq_none (meds : List Medicine) (it : DispenseItem)
    (h : resolveUpd meds it = none) : consumeStep resolveUpd meds it = meds := by
  unfold consumeStep; rw [h]

theorem resolveUpd_consumeExactStep (meds : List Medicine) (it it2 : DispenseItem) :
    resolveUpd (consumeExactStep meds it2) it = resolveUpd meds it := by
  cases h : resolveUpd meds it2 with
  | some j => rw [consumeExactStep_eq_some meds it2 j h]; exact resolveUpd_updateStockAt meds it j _
  | none => rw [consumeExactStep_eq_none meds it2 h]

theorem resolveUpd_restoreStep (meds : List Medicine) (it it2 : DispenseItem) :
    resolveUpd (restoreStep meds it2) it = resolveUpd meds it := by
  cases h : resolveUpd meds it2 with
  | some j => rw [restoreStep_eq_some meds it2 j h]; exact resolveUpd_updateStockAt meds it j _
  | none => rw [restoreStep_eq_none meds it2 h]

/-- A restore step and an exact consume step commute. -/
theorem restoreStep_consumeExactStep_comm (meds : List Medicine)
    (it it2 : DispenseItem) :
    restoreStep (consumeExactStep meds it2) it
      = consumeExactStep (restoreStep meds it) it2 := by
  cases hit : resolveUpd meds it with
  | none =>
    rw [restoreStep_eq_none meds it hit,
      restoreStep_eq_none (consumeExactStep meds it2) it
        (by rw [resolveUpd_consumeExactStep]; exact hit)]
  | some i =>
    rw [restoreStep_eq_some (consumeExactStep meds it2) it i
        (by rw [resolveUpd_consumeExactStep]; exact hit),
      restoreStep_eq_some meds it i hit]
    cases hit2 : resolveUpd meds it2 with
    | none =>
      rw [consumeExactStep_eq_none meds it2 hit2,
        consumeExactStep_eq_none (updateStockAt meds i fun s => s + it.quantity) it2
          (by rw [resolveUpd_updateStockAt]; exact hit2)]
    | some j =>
      rw [consumeExactStep_eq_some meds it2 j hit2,
        consumeExactStep_eq_some (updateStockAt meds i fun s => s + it.quantity) it2 j
          (by rw [resolveUpd_updateStockAt]; exact hit2)]
      by_cases hij : i = j
      · subst hij
        rw [updateStockAt_comp, updateStockAt_comp]
        exact updateStockAt_ext meds i _ _
          (fun s => by show s - it2.quantity + it.quantity = s + it.quantity - it2.quantity; omega)
      · exact updateStockAt_comm_ne meds j i _ _ (fun hc => hij hc.symm)

/-- A restore step slides through an exact consume pass. -/
theorem restoreStep_consumeExactPass (items : List DispenseItem)
    (meds : List Medicine) (it : DispenseItem) :
    restoreStep (consumeExactPass meds items) it
      = consumeExactPass (restoreStep meds it) items := by
  induction items generalizing meds with
  | nil => rfl
  | cons it2 rest ih =>
    show restoreStep (consumeExactPass (consumeExactStep meds it2) rest) it = _
    rw [ih (consumeExactStep meds it2), restoreStep_consumeExactStep_comm]
    rfl

/-- A restore step undoes the matching exact consume step. -/
theorem restoreStep_consumeExactStep (meds : List Medicine) (it : DispenseItem) :
    restoreStep (consumeExactStep meds it) it = meds := by
  cases hit : resolveUpd meds it with
  | none => rw [consumeExactStep_eq_none meds it hit, restoreStep_eq_none meds it hit]
  | some i =>
    rw [consumeExactStep_eq_some meds it i hit,
      restoreStep_eq_some (updateStockAt meds i fun s => s - it.quantity) it i
        (by rw [resolveUpd_updateStockAt]; exact hit),
      updateStockAt_comp,
      updateStockAt_ext meds i (fun s => s - it.quantity + it.quantity) (fun s => s)
        (fun s => by show s - it.quantity + it.quantity = s; omega),
      updateStockAt_id]

/-- The restore pass inverts the exact consume pass over the same item list. -/
theorem restorePass_consumeExactPass (items : List DispenseItem)
    (meds : List Medicine) :
    restorePass (consumeExactPass meds items) items = meds := by
  induction items generalizing meds with
  | nil => rfl
  | cons it rest ih =>
    show restorePass (restoreStep (consumeExactPass (consumeExactStep meds it) rest) it) rest = _
    rw [restoreStep_consumeExactPass rest (consumeExactStep meds it) it,
      ih (restoreStep (consumeExactStep meds it) it),
      restoreStep_consumeExactStep]

end Clinic

namespace Clinic

theorem updateStockAt_congr_at (meds : List Medicine) (i : Nat) (f g : Int → Int)
    (hlt : i < meds.length) (h : f (stockAt meds i) = g (stockAt meds i)) :
    updateStockAt meds i f = updateStockAt meds i g := by
  induction meds generalizing i with
  | nil => simp at hlt
  | cons m ms ih =>
    cases i with
    | zero =>
      have : f m.stock = g m.stock := h
      simp [updateStockAt, this]
    | succ n =>
      have hn : n < ms.length := by simpa using hlt
      have hsn : f (stockAt ms n) = g (stockAt ms n) := h
      simp [updateStockAt, ih n hn hsn]

theorem all_updateStockAt (q : Medicine → Bool)
    (hq : ∀ m c, q { m with stock := c } = q m)
    (meds : List Medicine) (i : Nat) (f : Int → Int) :
    (updateStockAt meds i f).all q = meds.all q := by
  induction meds generalizing i with
  | nil => rfl
  | cons m ms ih =>
    cases i with
    | zero =>
      show ({ m with stock := f m.stock } :: ms).all q = _
      simp only [List.all_cons, hq m (f m.stock)]
    | succ n =>
      show (m :: updateStockAt ms n f).all q = _
      simp only [List.all_cons, ih n]

theorem namesDistinct_updateStockAt (meds : List Medicine) (i : Nat) (f : Int → Int) :
    namesDistinct (updateStockAt meds i f) = namesDistinct meds := by
  induction meds generalizing i with
  | nil => rfl
  | cons m ms ih =>
    cases i with
    | zero => rfl
    | succ n =>
      show namesDistinct (m :: updateStockAt ms n f) = _
      unfold namesDistinct
      rw [ih n, all_updateStockAt (fun m2 => m2.name ≠ m.name) (fun m2 c => rfl) ms n f]

theorem namesDistinct_consumeStep (meds : List Medicine) (it : DispenseItem) :
    namesDistinct (consumeStep resolveUpd meds it) = namesDistinct meds := by
  cases hit : resolveUpd meds it with
  | none => rw [consumeStep_eq_none meds it hit]
  | some i =>
    rw [consumeStep_eq_some meds it i hit, namesDistinct_updateStockAt]

/-- Under sufficient stock, the clamped consume pass is the exact one. -/
theorem consumePass_eq_exact (items : List DispenseItem) (meds : List Medicine)
    (hsuff : suffStock meds items = true) :
    consumePass meds items = consumeExactPass meds items := by
  induction items generalizing meds with
  | nil => rfl
  | cons it rest ih =>
    show consumePass (consumeStep resolveUpd meds it) rest
      = consumeExactPass (consumeExactStep meds it) rest
    unfold suffStock at hsuff
    cases hit : resolveUpd meds it with
    | none =>
      simp only [hit] at hsuff
      rw [consumeStep_eq_none meds it hit, consumeExactStep_eq_none meds it hit]
      exact ih meds hsuff
    | some i =>
      simp only [hit, Bool.and_eq_true, decide_eq_true_eq] at hsuff
      have hstep : consumeStep resolveUpd meds it = consumeExactStep meds it := by
        rw [consumeStep_eq_some meds it i hit, consumeExactStep_eq_some meds it i hit]
        refine updateStockAt_congr_at meds i _ _ (resolveUpd_lt_length meds it i hit) ?_
        show max 0 (stockAt meds i - it.quantity) = stockAt meds i - it.quantity
        have := hsuff.1
        omega
      rw [hstep]
      refine ih (consumeExactStep meds it) ?_
      rw [← hstep]
      exact hsuff.2

/-- Under distinct names, the creation decrement pass is the update/cancel
    consume pass. -/
theorem createStockPass_eq_consumePass (items : List DispenseItem)
    (meds : List Medicine) (hnames : namesDistinct meds = true) :
    createStockPass meds items = consumePass meds items := by
  induction items generalizing meds with
  | nil => rfl
  | cons it rest ih =>
    show createStockPass (consumeStep resolveCreate meds it) rest
      = consumePass (consumeStep resolveUpd meds it) rest
    have hstep : consumeStep resolveCreate meds it = consumeStep resolveUpd meds it := by
      unfold consumeStep
      rw [resolveCreate_eq_resolveUpd meds it hnames]
    rw [hstep]
    refine ih (consumeStep resolveUpd meds it) ?_
    rw [namesDistinct_consumeStep]
    exact hnames

/-- C7 amended: against a catalog with pairwise distinct medicine names (so
    creation and cancellation resolve each item to the same medicine) and
    stock at least the dispensed quantities, cancelling a freshly created
    dispense restores every stock to its exact pre-creation value, and a
    second cancel is rejected. -/
theorem c7_create_cancel_roundtrip (items : List DispenseItem) (tax discount : Int)
    (clock : BillClock) (meds : List Medicine)
    (hnames : namesDistinct meds = true)
    (hsuff : suffStock meds items = true) :
    cancelDispense (createDispense items tax discount clock meds).1
        (createDispense items tax discount clock meds).2
      = .ok ({ (createDispense items tax discount clock meds).1 with
          paymentStatus := .cancelled }, meds) ∧
    cancelDispense { (createDispense items tax discount clock meds).1 with
        paymentStatus := .cancelled } meds = .error .alreadyCancelled := by
  have h2 : (createDispense items tax discount clock meds).2
      = createStockPass meds items := rfl
  have hitems : (createDispense items tax discount clock meds).1.items = items := rfl
  have hps : (createDispense items tax discount clock meds).1.paymentStatus
      = .pending := rfl
  constructor
  · rw [cancelDispense_eq _ _ (by rw [hps]; simp)]
    rw [h2, hitems,
      createStockPass_eq_consumePass items meds hnames,
      consumePass_eq_exact items meds hsuff,
      restorePass_consumeExactPass]
    simp [hitems]
  · simp [cancelDispense]

/-- A one-entry catalog with ample stock. -/
def c7GoodMeds : List Medicine := [⟨"Amox", "500", "tab", 10⟩]

/-- Witness for c7_create_cancel_roundtrip at a concrete catalog and item
    list: cancel returns the stock to exactly the pre-creation catalog. -/
theorem c7_create_cancel_roundtrip_witness :
    cancelDispense (createDispense [c7Item] 0 0 clockW c7GoodMeds).1
        (createDispense [c7Item] 0 0 clockW c7GoodMeds).2
      = .ok ({ (createDispense [c7Item] 0 0 clockW c7GoodMeds).1 with
          paymentStatus := .cancelled }, c7GoodMeds) := by
  exact (c7_create_cancel_roundtrip [c7Item] 0 0 clockW c7GoodMeds
    (by decide) (by decide)).1

end Clinic
